import Mathlib

/-!
Verification of the serde/EETF translation core (`src/ser.rs`, `src/de.rs`,
`src/error.rs`).

The development shallowly embeds the term tree (`eetf::Term`, restricted to
the eight node kinds this codec ever produces or dispatches on), the error
taxonomy (`error.rs`), the Encoder (`ser.rs`), and the Decoder (`de.rs`)
driven by the derived value-description protocol of the external
serialization framework.  Strings are represented by their UTF-8 byte
sequences (`List Nat`), exactly as Rust strings are; machine integers are
`Int` with explicit range checks mirroring `num_traits` checked casts;
the 64-bit float payload is carried as its IEEE bit pattern (`Nat`), the
only thing the codec ever inspects about it being finiteness
(exponent field not all-ones).
-/

namespace SerdeEetf

/-- Error taxonomy, one constructor per variant of `Error` in `error.rs`. -/
inductive Error where
  | Message (msg : String)
  | DecodeError (msg : String)
  | EncodeError (msg : String)
  | TypeHintsRequired
  | ExpectedBoolean
  | InvalidBoolean
  | ExpectedFixInteger
  | ExpectedFloat
  | ExpectedChar
  | ExpectedBinary
  | Utf8DecodeError
  | ExpectedNil
  | ExpectedList
  | ExpectedTuple
  | WrongTupleLength
  | ExpectedMap
  | ExpectedAtom
  | IntegerConvertError
  | FloatConvertError
  | TooManyItems
  | MisSizedVariantTuple
  | ExpectedAtomOrTuple
deriving DecidableEq, Repr

/-- Term tree node (`eetf::Term`), restricted to the eight kinds produced by
the Encoder and dispatched on by the Decoder.  The remaining opaque wire
kinds (Pid, Port, Reference, Fun, BitBinary, ImproperList) all land in the
catch-all arms of every decode match, exactly as these eight do when
mismatched, so omitting them loses no behaviour relevant to the claims.
Atom names and binary payloads are byte sequences.  `fixInteger` carries the
`i32` wire value, `bigInteger` the arbitrary-precision value, `float` the
IEEE-754 bit pattern of the 64-bit payload. -/
inductive Term where
  | atom (name : List Nat)
  | fixInteger (value : Int)
  | bigInteger (value : Int)
  | float (bits : Nat)
  | binary (bytes : List Nat)
  | list (elements : List Term)
  | tuple (elements : List Term)
  | map (entries : List (Term × Term))

/-- Byte sequence of the atom name `"nil"`. -/
def nilBytes : List Nat := [110, 105, 108]

/-- Byte sequence of the atom name `"true"`. -/
def trueBytes : List Nat := [116, 114, 117, 101]

/-- Byte sequence of the atom name `"false"`. -/
def falseBytes : List Nat := [102, 97, 108, 115, 101]

/-- Finiteness of an IEEE-754 double given by its bit pattern: the value is
finite iff the 11-bit exponent field is not all ones.  This is the check
behind `eetf::Float::try_from`, which the serializer calls and which fails
exactly on NaN and the infinities. -/
def f64IsFinite (bits : Nat) : Bool := (bits / 2 ^ 52) % 2 ^ 11 != 2047

/-- Continuation byte test for UTF-8 (`0x80..=0xBF`). -/
def isUtf8Cont (b : Nat) : Bool := 128 ≤ b && b ≤ 191

/-- One step of the standard UTF-8 acceptance automaton over byte classes
(states: 0 start/accept; 1, 2, 3 expect that many generic continuation
bytes; 4 second byte of an E0 sequence; 5 second byte of an ED sequence;
6 second byte of an F0 sequence; 7 second byte of an F4 sequence).  The
lead-byte classes and tightened second-byte ranges exclude exactly the
overlong forms, the surrogates and scalar values above `0x10FFFF`. -/
def utf8Step (state b : Nat) : Option Nat :=
  match state with
  | 0 =>
    if b < 128 then some 0
    else if b < 194 then none
    else if b < 224 then some 1
    else if b = 224 then some 4
    else if b = 237 then some 5
    else if b < 240 then some 2
    else if b = 240 then some 6
    else if b < 244 then some 3
    else if b = 244 then some 7
    else none
  | 1 => if isUtf8Cont b then some 0 else none
  | 2 => if isUtf8Cont b then some 1 else none
  | 3 => if isUtf8Cont b then some 2 else none
  | 4 => if 160 ≤ b && b ≤ 191 then some 1 else none
  | 5 => if 128 ≤ b && b ≤ 159 then some 1 else none
  | 6 => if 144 ≤ b && b ≤ 191 then some 2 else none
  | 7 => if 128 ≤ b && b ≤ 143 then some 2 else none
  | _ => none

/-- Run of the UTF-8 automaton: the input is accepted iff it drives the
automaton back to the start state. -/
def utf8Run (state : Nat) : List Nat → Bool
  | [] => state = 0
  | b :: rest =>
    match utf8Step state b with
    | some state' => utf8Run state' rest
    | none => false

/-- UTF-8 validity of a byte sequence, as accepted by `str::from_utf8`:
well-formed sequences only, no overlong forms, no surrogates, maximum
scalar value `0x10FFFF`. -/
def isValidUtf8 (bs : List Nat) : Bool := utf8Run 0 bs

/-- UTF-8 encoding of a Unicode scalar value (what `char::to_string` followed
by `str::as_bytes` produces for a single `char`). -/
def utf8Encode (c : Nat) : List Nat :=
  if c < 128 then [c]
  else if c < 2048 then [192 + c / 64, 128 + c % 64]
  else if c < 65536 then [224 + c / 4096, 128 + (c / 64) % 64, 128 + c % 64]
  else [240 + c / 262144, 128 + (c / 4096) % 64, 128 + (c / 64) % 64, 128 + c % 64]

/-- First scalar value of a UTF-8 byte sequence (`str::chars().next()` on a
string whose bytes are the given sequence); `none` on the empty string or a
truncated head sequence. -/
def utf8DecodeFirst : List Nat → Option Nat
  | [] => none
  | b :: rest =>
    if b < 128 then some b
    else if b < 224 then
      match rest with
      | b2 :: _ => some ((b - 192) * 64 + (b2 - 128))
      | [] => none
    else if b < 240 then
      match rest with
      | b2 :: b3 :: _ => some ((b - 224) * 4096 + (b2 - 128) * 64 + (b3 - 128))
      | _ => none
    else
      match rest with
      | b2 :: b3 :: b4 :: _ =>
        some ((b - 240) * 262144 + (b2 - 128) * 4096 + (b3 - 128) * 64 + (b4 - 128))
      | _ => none

/-- A Unicode scalar value: below `0x110000` and not a surrogate. -/
def isScalarValue (c : Nat) : Bool := c < 1114112 && !(55296 ≤ c && c < 57344)

/-- ASCII uppercase letter test on a byte. -/
def isUpperByte (b : Nat) : Bool := 65 ≤ b && b ≤ 90

/-- ASCII lowercase letter test on a byte. -/
def isLowerByte (b : Nat) : Bool := 97 ≤ b && b ≤ 122

/-- Uppercase an ASCII lowercase byte, leave anything else unchanged. -/
def upperByte (b : Nat) : Nat := if isLowerByte b then b - 32 else b

/-- Modelled from the spec: the Name Casing Utility (§4.3), realised in the
source by the external `heck` crate's `to_snake_case`, called at the enum
variant encode sites of `ser.rs`.  Worker with a flag recording whether any
output has been emitted yet: an uppercase letter is lowercased and, unless it
opens the identifier, preceded by an underscore. -/
def toSnakeAux : Bool → List Nat → List Nat
  | _, [] => []
  | started, b :: rest =>
    if isUpperByte b then
      (if started then [95, b + 32] else [b + 32]) ++ toSnakeAux true rest
    else b :: toSnakeAux true rest

/-- Modelled from the spec: snake-case conversion of an identifier
(`heck::SnakeCase::to_snake_case` at the call sites in `ser.rs`). -/
def toSnakeCase (name : List Nat) : List Nat := toSnakeAux false name

/-- Modelled from the spec: worker for camel-case conversion; the flag says
whether the next letter opens a word and must be capitalised.  Underscores
are dropped and start a new word. -/
def toCamelAux : Bool → List Nat → List Nat
  | _, [] => []
  | cap, b :: rest =>
    if b = 95 then toCamelAux true rest
    else (if cap then upperByte b else b) :: toCamelAux false rest

/-- Modelled from the spec: camel-case conversion of an identifier
(`heck::CamelCase::to_camel_case` at the call sites in `de.rs`). -/
def toCamelCase (name : List Nat) : List Nat := toCamelAux true name

/-- Identifier in camel-case word form: nonempty, ASCII letters only, opening
with an uppercase letter.  On this domain the snake/camel conversions above
agree with the source's `heck` crate and invert each other. -/
def isCamelIdent : List Nat → Bool
  | [] => false
  | b :: rest => isUpperByte b && rest.all (fun c => isLowerByte c || isUpperByte c)

mutual

/-- Typed host values, one constructor per shape of the value-description
protocol that the Encoder handles (`ser.rs`): machine integers carry their
mathematical value, strings and byte blobs their byte sequences, chars their
scalar value, floats their IEEE bit pattern.  Record fields and enum record
payloads are ordered (field name, value) lists; enum values carry the
variant name in host (camel-case) spelling, exactly as the framework hands
it to `serialize_*_variant`. -/
inductive Value where
  | vbool (b : Bool)
  | vi8 (n : Int)
  | vi16 (n : Int)
  | vi32 (n : Int)
  | vi64 (n : Int)
  | vu8 (n : Int)
  | vu16 (n : Int)
  | vu32 (n : Int)
  | vu64 (n : Int)
  | vf64 (bits : Nat)
  | vchar (c : Nat)
  | vstr (bytes : List Nat)
  | vbytes (bytes : List Nat)
  | vnone
  | vsome (v : Value)
  | vunit
  | vseq (elems : List Value)
  | vtuple (elems : List Value)
  | vrecord (fields : List (List Nat × Value))
  | venum (variant : List Nat) (payload : VPayload)

/-- Payload of an enum value: unit, newtype, tuple or record variant. -/
inductive VPayload where
  | pUnit
  | pNewtype (v : Value)
  | pTuple (vs : List Value)
  | pRecord (fields : List (List Nat × Value))

end

mutual

/-- Shape hints, one constructor per target kind the Decoder can be driven
with by the value-description protocol (`deserialize_*` in `de.rs`). -/
inductive Shape where
  | bool
  | i8
  | i16
  | i32
  | i64
  | u8
  | u16
  | u32
  | u64
  | f64
  | char
  | str
  | bytes
  | option (s : Shape)
  | unit
  | seq (s : Shape)
  | tuple (ss : List Shape)
  | record (fields : List (List Nat × Shape))
  | enum (variants : List (List Nat × VShape))

/-- Declared shape of one enum variant. -/
inductive VShape where
  | vsUnit
  | vsNewtype (s : Shape)
  | vsTuple (ss : List Shape)
  | vsRecord (fields : List (List Nat × Shape))

end

mutual

/-- The Encoder (`impl ser::Serializer for &Serializer`, `ser.rs:61-289`,
composed with the builders of `ser.rs:291-462` which accumulate child nodes
in order and finalize into one node).  Integer widening chains are inlined:
`serialize_i8`/`serialize_i16` delegate to `serialize_i32` (FixInteger),
`serialize_u8` to `serialize_u16` (FixInteger via value-preserving `From`),
`serialize_u32` to `serialize_u64` (BigInteger); all conversions preserve
the value.  `serialize_f64` goes through `eetf::Float::try_from`, which
fails on a non-finite payload (the `FloatConvertError` taxonomy member). -/
def encode : Value → Except Error Term
  | .vbool b => .ok (.atom (if b then trueBytes else falseBytes))
  | .vi8 n => .ok (.fixInteger n)
  | .vi16 n => .ok (.fixInteger n)
  | .vi32 n => .ok (.fixInteger n)
  | .vi64 n => .ok (.bigInteger n)
  | .vu8 n => .ok (.fixInteger n)
  | .vu16 n => .ok (.fixInteger n)
  | .vu32 n => .ok (.bigInteger n)
  | .vu64 n => .ok (.bigInteger n)
  | .vf64 bits => if f64IsFinite bits then .ok (.float bits) else .error .FloatConvertError
  | .vchar c => .ok (.binary (utf8Encode c))
  | .vstr bs => .ok (.binary bs)
  | .vbytes bs => .ok (.binary bs)
  | .vnone => .ok (.atom nilBytes)
  | .vsome v => encode v
  | .vunit => .ok (.atom nilBytes)
  | .vseq vs => do
    let ts ← encodeList vs
    .ok (.list ts)
  | .vtuple vs => do
    let ts ← encodeList vs
    .ok (.tuple ts)
  | .vrecord fs => do
    let es ← encodeFields fs
    .ok (.map es)
  | .venum name p =>
    match p with
    | .pUnit => .ok (.atom (toSnakeCase name))
    | .pNewtype v => do
      let t ← encode v
      .ok (.tuple [.atom (toSnakeCase name), t])
    | .pTuple vs => do
      let ts ← encodeList vs
      .ok (.tuple [.atom (toSnakeCase name), .tuple ts])
    | .pRecord fs => do
      let es ← encodeFields fs
      .ok (.tuple [.atom (toSnakeCase name), .map es])

/-- Element-wise encoding of a sequence or tuple (the `SequenceSerializer`
builders push each serialized element in order). -/
def encodeList : List Value → Except Error (List Term)
  | [] => .ok []
  | v :: vs => do
    let t ← encode v
    let ts ← encodeList vs
    .ok (t :: ts)

/-- Field-wise encoding of a record (the `MapSerializer`/`NamedMapSerializer`
builders push `(Atom(field name), value)` with the field name taken
verbatim, `ser.rs:422-430` and `ser.rs:443-451`). -/
def encodeFields : List (List Nat × Value) → Except Error (List (Term × Term))
  | [] => .ok []
  | (n, v) :: fs => do
    let t ← encode v
    let es ← encodeFields fs
    .ok ((.atom n, t) :: es)

end

/-- Range of a signed 64-bit integer, the intermediate step of
`BigInt::to_i64` in `parse_integer` (`de.rs:81-91`): an arbitrary-precision
value converts iff it fits. -/
def toI64 (n : Int) : Option Int :=
  if -9223372036854775808 ≤ n ∧ n ≤ 9223372036854775807 then some n else none

/-- Integer parsing (`Deserializer::parse_integer`, `de.rs:69-94`),
parameterised by the target width's range `[lo, hi]`: a FixInteger narrows
via the range-checked cast `T::from_i32`, a BigInteger first converts to a
64-bit value (`to_i64`) and then applies the same range check
(`T::from_i64`); every failed check is `IntegerConvertError` and every
non-integer node is `ExpectedFixInteger`. -/
def parseInteger (lo hi : Int) : Term → Except Error Int
  | .fixInteger v => if lo ≤ v ∧ v ≤ hi then .ok v else .error .IntegerConvertError
  | .bigInteger v =>
    match toI64 v with
    | some n => if lo ≤ n ∧ n ≤ hi then .ok n else .error .IntegerConvertError
    | none => .error .IntegerConvertError
  | _ => .error .ExpectedFixInteger

/-- Float parsing (`Deserializer::parse_float`, `de.rs:96-108`) for the
64-bit target: only a Float node is accepted (`ExpectedFloat` otherwise)
and `f64::from_f64` is the identity, so its `IntegerConvertError` arm is
dead for this target. -/
def parseFloat : Term → Except Error Nat
  | .float bits => .ok bits
  | _ => .error .ExpectedFloat

/-- Binary parsing (`Deserializer::parse_binary`, `de.rs:110-115`). -/
def parseBinary : Term → Except Error (List Nat)
  | .binary bs => .ok bs
  | _ => .error .ExpectedBinary

/-- String parsing (`Deserializer::parse_string`, `de.rs:117-124`): the
binary's bytes are validated as UTF-8; a Rust `String` is its UTF-8 bytes,
so the result is represented by the validated byte sequence itself. -/
def parseString (t : Term) : Except Error (List Nat) :=
  match parseBinary t with
  | .ok bs => if isValidUtf8 bs then .ok bs else .error .Utf8DecodeError
  | .error e => .error e

/-- Wording of `serde::de::Error::duplicate_field`, boxed by
`Error::custom` into the `Message` taxonomy member. -/
def duplicateFieldMsg : String := "duplicate field"

/-- Wording of `serde::de::Error::missing_field`, boxed into `Message`. -/
def missingFieldMsg : String := "missing field"

/-- Wording of `serde::de::Error::unknown_variant`, boxed into `Message`. -/
def unknownVariantMsg : String := "unknown variant"

/-- Wording of the framework error raised when a payload is pulled from a
plain variant-name string deserializer, boxed into `Message`. -/
def invalidTypeMsg : String := "invalid type: unit variant"

/-- Wording of `serde::de::Error::invalid_length`, boxed into `Message`. -/
def invalidLengthMsg : String := "invalid length"

/-- Field accumulator of the derived record visitor: one optional slot per
declared field, in declaration order. -/
def initAcc (fields : List (List Nat × Shape)) : List (List Nat × Option Value) :=
  fields.map (fun p => (p.1, none))

/-- Look up a field slot by name. -/
def accGet (acc : List (List Nat × Option Value)) (name : List Nat) : Option (Option Value) :=
  (acc.find? (fun p => p.1 == name)).map (fun p => p.2)

/-- Whether a field slot has already been filled (the derived visitor's
duplicate-field guard). -/
def alreadySet (acc : List (List Nat × Option Value)) (name : List Nat) : Bool :=
  match accGet acc name with
  | some (some _) => true
  | _ => false

/-- Fill a field slot. -/
def accSet (acc : List (List Nat × Option Value)) (name : List Nat) (val : Value) :
    List (List Nat × Option Value) :=
  acc.map (fun p => if p.1 == name then (p.1, some val) else p)

/-- Collapse the accumulator once the map cursor is drained: every slot must
be filled, else the derived visitor raises `missing_field`. -/
def allSome : List (List Nat × Option Value) → Option (List (List Nat × Value))
  | [] => some []
  | (n, some v) :: rest => (allSome rest).map (fun vs => (n, v) :: vs)
  | (_, none) :: _ => none

/-- Unit-variant dispatch for `deserialize_enum`'s Atom arm
(`de.rs:420-423`): `visit_enum(atom.name.to_camel_case().into_deserializer())`.
The derived visitor matches the camel-cased name against the variant list
(first match, as `find?` does) and then drives the string deserializer's
variant access, which accepts a unit variant and rejects any payload pull
with a framework `invalid type` error; an unmatched name is the framework's
`unknown variant` error. -/
def decodeVariantAtom : List (List Nat × VShape) → List Nat → Except Error Value
  | [], _ => .error (.Message unknownVariantMsg)
  | (n, vs) :: rest, ident =>
    if n == ident then
      match vs with
      | .vsUnit => .ok (.venum n .pUnit)
      | _ => .error (.Message invalidTypeMsg)
    else decodeVariantAtom rest ident

mutual

/-- The Decoder (`impl de::Deserializer for Deserializer`, `de.rs:127-451`)
composed with the derived value-description visitor for the given shape
hint.  Width ranges instantiate `parse_integer`'s checked casts.  The
`option` hint is `deserialize_option` (`de.rs:271-285`); `unit` is
`deserialize_unit`; `seq` is `deserialize_seq` driven by the draining
sequence visitor (`ListDeserializer::end` is never called, `de.rs:328`);
`tuple` is `deserialize_tuple` with its up-front arity check; `record` is
`deserialize_struct`/`deserialize_map` driven by the derived field loop,
followed by `MapDeserializer::end` (vacuous after a full drain);
`enum` is `deserialize_enum` (`de.rs:410-432`) with the
`EnumDeserializer`/`VariantNameDeserializer` machinery
(`de.rs:572-673`). -/
def decode (s : Shape) (t : Term) : Except Error Value :=
  match s, t with
  | .bool, .atom a =>
    if a = trueBytes then .ok (.vbool true)
    else if a = falseBytes then .ok (.vbool false)
    else .error .InvalidBoolean
  | .bool, _ => .error .ExpectedBoolean
  | .i8, t => (parseInteger (-128) 127 t).map .vi8
  | .i16, t => (parseInteger (-32768) 32767 t).map .vi16
  | .i32, t => (parseInteger (-2147483648) 2147483647 t).map .vi32
  | .i64, t => (parseInteger (-9223372036854775808) 9223372036854775807 t).map .vi64
  | .u8, t => (parseInteger 0 255 t).map .vu8
  | .u16, t => (parseInteger 0 65535 t).map .vu16
  | .u32, t => (parseInteger 0 4294967295 t).map .vu32
  | .u64, t => (parseInteger 0 18446744073709551615 t).map .vu64
  | .f64, t => (parseFloat t).map .vf64
  | .char, t =>
    -- `deserialize_char` (`de.rs:226-241`): `ExpectedBinary` is remapped to
    -- `ExpectedChar`, other parse errors pass through; the byte length of
    -- the decoded string must be exactly 1 (`string.len()` counts bytes).
    (match parseString t with
     | .error .ExpectedBinary => .error .ExpectedChar
     | .error e => .error e
     | .ok bs =>
       if bs.length = 1 then
         match utf8DecodeFirst bs with
         | some c => .ok (.vchar c)
         -- the source unwraps `chars().next()`; this arm is unreachable
         -- because a validated byte string of length 1 is nonempty
         | none => .error .ExpectedChar
       else .error .ExpectedChar)
  | .str, t => (parseString t).map .vstr
  | .bytes, t => (parseBinary t).map .vbytes
  | .option s', t =>
    (match t with
     | .atom a =>
       if a = nilBytes then .ok .vnone
       else
         match decode s' (.atom a) with
         | .ok v => .ok (.vsome v)
         | .error e => .error e
     | t' =>
       match decode s' t' with
       | .ok v => .ok (.vsome v)
       | .error e => .error e)
  | .unit, .atom a => if a = nilBytes then .ok .vunit else .error .ExpectedNil
  | .unit, _ => .error .ExpectedNil
  | .seq s', .list l =>
    (match decodeSeqElems s' l with
     | .ok vs => .ok (.vseq vs)
     | .error e => .error e)
  | .seq _, _ => .error .ExpectedList
  | .tuple ss, .tuple es =>
    if es.length ≠ ss.length then .error .WrongTupleLength
    else
      match decodeTupleElems ss es with
      | .ok vs => .ok (.vtuple vs)
      | .error e => .error e
  | .tuple _, _ => .error .ExpectedTuple
  | .record fields, .map entries =>
    (match decodeStructEntries fields entries (initAcc fields) with
     | .error e => .error e
     | .ok acc =>
       match allSome acc with
       | some vals => .ok (.vrecord vals)
       | none => .error (.Message missingFieldMsg))
  | .record _, _ => .error .ExpectedMap
  | .enum variants, .atom a => decodeVariantAtom variants (toCamelCase a)
  | .enum variants, .tuple elems =>
    -- two-element tuple: `EnumDeserializer::new(variant_term, value_term)`;
    -- the variant name comes from `VariantNameDeserializer`, which
    -- camel-cases an atom and rejects anything else with `ExpectedAtom`
    (match elems with
     | [variantTerm, valueTerm] =>
       (match variantTerm with
        | .atom a => decodeVariantTuple variants (toCamelCase a) valueTerm
        | _ => .error .ExpectedAtom)
     | _ => .error .MisSizedVariantTuple)
  | .enum _, _ => .error .ExpectedAtomOrTuple
termination_by (sizeOf s, 0)
decreasing_by
  all_goals simp_wf
  all_goals apply Prod.Lex.left
  all_goals omega

/-- Non-unit-variant dispatch for `deserialize_enum`'s two-element Tuple arm:
the derived visitor matches the camel-cased tag against the variant list
(first match, as `find?` does) and then drives `EnumDeserializer`'s variant
access for the matched variant's declared shape (`de.rs:606-643`):
`unit_variant` fails with `ExpectedAtom`; `newtype_variant_seed` decodes the
payload directly; `tuple_variant` runs `deserialize_tuple len` on the
payload; `struct_variant` runs `deserialize_map` on the payload. -/
def decodeVariantTuple (variants : List (List Nat × VShape)) (ident : List Nat)
    (valueTerm : Term) : Except Error Value :=
  match variants with
  | [] => .error (.Message unknownVariantMsg)
  | (n, vs) :: rest =>
    if n == ident then
      match vs with
      | .vsUnit => .error .ExpectedAtom
      | .vsNewtype s' =>
        (match decode s' valueTerm with
         | .ok v => .ok (.venum n (.pNewtype v))
         | .error e => .error e)
      | .vsTuple ss =>
        (match valueTerm with
         | .tuple es =>
           if es.length ≠ ss.length then .error .WrongTupleLength
           else
             match decodeTupleElems ss es with
             | .ok vals => .ok (.venum n (.pTuple vals))
             | .error e => .error e
         | _ => .error .ExpectedTuple)
      | .vsRecord fs =>
        (match valueTerm with
         | .map entries =>
           (match decodeStructEntries fs entries (initAcc fs) with
            | .error e => .error e
            | .ok acc =>
              match allSome acc with
              | some vals => .ok (.venum n (.pRecord vals))
              | none => .error (.Message missingFieldMsg))
         | _ => .error .ExpectedMap)
    else decodeVariantTuple rest ident valueTerm
termination_by (sizeOf variants, 0)
decreasing_by
  all_goals simp_wf
  all_goals apply Prod.Lex.left
  all_goals omega

/-- The draining sequence visitor (e.g. the derived `Vec` visitor) pulling
every element through `SeqAccess::next_element_seed` (`de.rs:483-491`). -/
def decodeSeqElems (s : Shape) (ts : List Term) : Except Error (List Value) :=
  match ts with
  | [] => .ok []
  | t :: rest =>
    match decode s t with
    | .error e => .error e
    | .ok v =>
      match decodeSeqElems s rest with
      | .error e => .error e
      | .ok vs => .ok (v :: vs)
termination_by (sizeOf s, ts.length + 1)
decreasing_by
  all_goals simp_wf
  all_goals apply Prod.Lex.right
  all_goals omega

/-- The derived fixed-tuple visitor pulling exactly one element per declared
component; the mismatch arms are serde's `invalid_length` report, dead in
this codec because `deserialize_tuple` checks the arity up front. -/
def decodeTupleElems (ss : List Shape) (ts : List Term) : Except Error (List Value) :=
  match ss, ts with
  | [], [] => .ok []
  | s :: ss', t :: ts' =>
    (match decode s t with
     | .error e => .error e
     | .ok v =>
       match decodeTupleElems ss' ts' with
       | .error e => .error e
       | .ok vs => .ok (v :: vs))
  | _, _ => .error (.Message invalidLengthMsg)
termination_by (sizeOf ss, ts.length + 1)
decreasing_by
  all_goals simp_wf
  all_goals apply Prod.Lex.left
  all_goals omega

/-- The derived record visitor's field loop over the `MapAccess` cursor
(`de.rs:529-570`): each key is deserialized verbatim as an identifier
(`deserialize_identifier`, `de.rs:434-442`, atom name unconverted,
`ExpectedAtom` otherwise), matched against the declared field list; a known
field is decoded into its slot after the duplicate-field guard, an unknown
field's value is skipped via `deserialize_ignored_any` (always succeeds).
The loop drains the cursor completely, so the `MapDeserializer::end` check
that follows it finds nothing left. -/
def decodeStructEntries (fields : List (List Nat × Shape))
    (entries : List (Term × Term)) (acc : List (List Nat × Option Value)) :
    Except Error (List (List Nat × Option Value)) :=
  match entries with
  | [] => .ok acc
  | (k, v) :: rest =>
    match k with
    | .atom name =>
      (match decodeKnownField fields name v acc with
       | .error e => .error e
       | .ok (some acc') => decodeStructEntries fields rest acc'
       | .ok none => decodeStructEntries fields rest acc)
    | _ => .error .ExpectedAtom
termination_by (sizeOf fields, entries.length + 1)
decreasing_by
  all_goals simp_wf
  all_goals apply Prod.Lex.right
  all_goals omega

/-- Scan of the declared field list for one map key (the derived visitor's
field-identifier match, first matching declaration as `find?` would return):
an undeclared name yields `none` (the entry is skipped), a declared name
passes the duplicate-field guard and decodes the entry's value into the
slot. -/
def decodeKnownField (fields : List (List Nat × Shape)) (name : List Nat)
    (v : Term) (acc : List (List Nat × Option Value)) :
    Except Error (Option (List (List Nat × Option Value))) :=
  match fields with
  | [] => .ok none
  | (fn, s) :: fs =>
    if fn == name then
      if alreadySet acc name then .error (.Message duplicateFieldMsg)
      else
        match decode s v with
        | .error e => .error e
        | .ok val => .ok (some (accSet acc name val))
    else decodeKnownField fs name v acc
termination_by (sizeOf fields, 0)
decreasing_by
  all_goals simp_wf
  all_goals apply Prod.Lex.left
  all_goals omega

end

/-- The generic, hintless decode entry point
(`Deserializer::deserialize_any`, `de.rs:130-135`): it returns
`Err(TypeHintsRequired)` unconditionally, never invoking the visitor, so no
term node — whatever its kind and wherever it sits — can be decoded without
a shape hint. -/
def deserializeAny (_t : Term) : Except Error Value := .error .TypeHintsRequired

/-- `Deserializer::deserialize_identifier` (`de.rs:434-442`): an atom's name
is handed to the visitor verbatim (`visit_string(atom.name.clone())`, no
case conversion); any other node is `ExpectedAtom`.  This is the path record
field keys take. -/
def deserializeIdentifier : Term → Except Error (List Nat)
  | .atom name => .ok name
  | _ => .error .ExpectedAtom

/-- `VariantNameDeserializer::deserialize_any` (`de.rs:655-666`): an atom's
name is camel-cased before being handed to the visitor
(`visit_string(atom.name.to_camel_case())`); any other node is
`ExpectedAtom`.  This is the path enum variant tags take. -/
def variantNameDeserializeAny : Term → Except Error (List Nat)
  | .atom name => .ok (toCamelCase name)
  | _ => .error .ExpectedAtom

/-- Outcome of one framework call on a builder or cursor: a normal result,
a recoverable `Error`, or an aborted call (a Rust `panic!`). -/
inductive Outcome (α : Type) where
  | ok (a : α)
  | err (e : Error)
  | panicked (msg : String)
deriving Repr

/-- `ListDeserializer` (`de.rs:453-475`): the sequence cursor over the
remaining element nodes (a fused iterator). -/
structure ListDeserializer where
  iter : List Term

/-- `SeqAccess::next_element_seed`'s cursor step (`de.rs:483-491`): consume
and return the head, or report exhaustion. -/
def ListDeserializer.nextElement (d : ListDeserializer) : Option Term × ListDeserializer :=
  match d.iter with
  | [] => (none, d)
  | t :: rest => (some t, ⟨rest⟩)

/-- `ListDeserializer::end` (`de.rs:468-474`): succeed iff no elements
remain, else `TooManyItems`.  (Defined in the source but never invoked by
`deserialize_seq` or `deserialize_tuple`.) -/
def ListDeserializer.endCheck (d : ListDeserializer) : Except Error Unit :=
  if d.iter.length = 0 then .ok () else .error .TooManyItems

/-- A value-description visitor that pulls `n` elements from the sequence
cursor and then stops; returns the pulled nodes and the cursor state left
behind. -/
def pullElements : Nat → ListDeserializer → List Term × ListDeserializer
  | 0, d => ([], d)
  | n + 1, d =>
    match d.nextElement with
    | (some t, d') =>
      let (ts, d'') := pullElements n d'
      (t :: ts, d'')
    | (none, d') => ([], d')

/-- `deserialize_seq` (`de.rs:320-335`) driven by a visitor that pulls
`pulls` elements: on a List node the visitor's result is returned directly —
`ListDeserializer::end` is never called (the `TODO` at `de.rs:328`), so the
cursor may be dropped with elements still in it; any other node is
`ExpectedList`. -/
def deserializeSeqPulls (pulls : Nat) (t : Term) : Except Error (List Term) :=
  match t with
  | .list l => .ok (pullElements pulls ⟨l⟩).1
  | _ => .error .ExpectedList

/-- `MapDeserializer` (`de.rs:497-527`): the map cursor over the remaining
entry pairs, holding the pending value between the key pull and the value
pull. -/
structure MapDeserializer where
  items : List (Term × Term)
  currentValue : Option Term

/-- `MapAccess::next_key_seed`'s cursor step (`de.rs:538-555`): calling it
with a value still pending is a programming-contract violation and panics;
otherwise the next entry's key is returned and its value parked. -/
def MapDeserializer.nextKey (d : MapDeserializer) : Outcome (Option Term × MapDeserializer) :=
  match d.currentValue with
  | some _ => .panicked "MapDeserializer.next_key_seed was called twice in a row"
  | none =>
    match d.items with
    | [] => .ok (none, d)
    | (k, v) :: rest => .ok (some k, ⟨rest, some v⟩)

/-- `MapAccess::next_value_seed`'s cursor step (`de.rs:559-569`): calling it
with no value pending is a programming-contract violation and panics;
otherwise the parked value is returned and cleared. -/
def MapDeserializer.nextValue (d : MapDeserializer) : Outcome (Term × MapDeserializer) :=
  match d.currentValue with
  | some v => .ok (v, ⟨d.items, none⟩)
  | none => .panicked "MapDeserializer.next_value_seed was called before next_key_seed"

/-- `MapDeserializer::end` (`de.rs:520-526`): succeed iff no entries remain,
else `TooManyItems`. -/
def MapDeserializer.endCheck (d : MapDeserializer) : Except Error Unit :=
  if d.items.length = 0 then .ok () else .error .TooManyItems

/-- A value-description visitor that pulls `n` entries from the map cursor
through the correct `next_key`/`next_value` alternation and then stops;
returns the pulled entries and the cursor state left behind. -/
def pullEntries : Nat → MapDeserializer → Outcome (List (Term × Term) × MapDeserializer)
  | 0, d => .ok ([], d)
  | n + 1, d =>
    match d.nextKey with
    | .panicked m => .panicked m
    | .err e => .err e
    | .ok (none, d') => .ok ([], d')
    | .ok (some k, d') =>
      match d'.nextValue with
      | .panicked m => .panicked m
      | .err e => .err e
      | .ok (v, d'') =>
        match pullEntries n d'' with
        | .panicked m => .panicked m
        | .err e => .err e
        | .ok (kvs, dEnd) => .ok ((k, v) :: kvs, dEnd)

/-- `deserialize_map` (`de.rs:367-383`) driven by a visitor that pulls
`pulls` entries: on a Map node the visitor runs over the cursor and then
`MapDeserializer::end` is checked, turning any unconsumed remainder into
`TooManyItems`; any other node is `ExpectedMap`. -/
def deserializeMapPulls (pulls : Nat) (t : Term) : Outcome (List (Term × Term)) :=
  match t with
  | .map entries =>
    match pullEntries pulls ⟨entries, none⟩ with
    | .panicked m => .panicked m
    | .err e => .err e
    | .ok (kvs, dEnd) =>
      match dEnd.endCheck with
      | .ok () => .ok kvs
      | .error e => .err e
  | _ => .err .ExpectedMap

/-- `MapSerializer` (`ser.rs:52-54`): the map builder accumulating encoded
entry pairs. -/
structure MapSerializer where
  items : List (Term × Term)

/-- `SerializeMap::serialize_key` (`ser.rs:385-390`): unconditionally
`panic!("Not Implemented")` — no entry is recorded and no `Error` is
returned. -/
def MapSerializer.serializeKey (_m : MapSerializer) (_key : Value) : Outcome MapSerializer :=
  .panicked "Not Implemented"

/-- `SerializeMap::serialize_value` (`ser.rs:392-397`): unconditionally
`panic!("Not Implemented")` — no entry is recorded and no `Error` is
returned. -/
def MapSerializer.serializeValue (_m : MapSerializer) (_value : Value) : Outcome MapSerializer :=
  .panicked "Not Implemented"

/-- `SerializeMap::serialize_entry` (`ser.rs:399-408`): both key and value
are encoded and the pair is pushed onto the builder. -/
def MapSerializer.serializeEntry (m : MapSerializer) (key value : Value) :
    Outcome MapSerializer :=
  match encode key with
  | .error e => .err e
  | .ok keyTerm =>
    match encode value with
    | .error e => .err e
    | .ok valueTerm => .ok ⟨m.items ++ [(keyTerm, valueTerm)]⟩

mutual

/-- Round-trippable typed values: the typing relation between a shape hint
and a value of that shape, together with the side conditions under which
decoding the encoding provably returns the value unchanged — machine
integers within their width's range (`u64` capped at the signed 64-bit
maximum, the largest value `parse_integer`'s `to_i64` step can bring back),
finite floats, ASCII chars (a multi-byte char fails the decoder's one-byte
length check), UTF-8 strings, optionals whose payload does not itself
encode to the nil atom (the documented lossy collapse), records and enums
with distinct names, and variant names in camel-case word form (so the
snake/camel conversions invert). -/
inductive RT : Shape → Value → Prop where
  | bool (b : Bool) : RT .bool (.vbool b)
  | i8 (n : Int) : -128 ≤ n → n ≤ 127 → RT .i8 (.vi8 n)
  | i16 (n : Int) : -32768 ≤ n → n ≤ 32767 → RT .i16 (.vi16 n)
  | i32 (n : Int) : -2147483648 ≤ n → n ≤ 2147483647 → RT .i32 (.vi32 n)
  | i64 (n : Int) : -9223372036854775808 ≤ n → n ≤ 9223372036854775807 → RT .i64 (.vi64 n)
  | u8 (n : Int) : 0 ≤ n → n ≤ 255 → RT .u8 (.vu8 n)
  | u16 (n : Int) : 0 ≤ n → n ≤ 65535 → RT .u16 (.vu16 n)
  | u32 (n : Int) : 0 ≤ n → n ≤ 4294967295 → RT .u32 (.vu32 n)
  | u64 (n : Int) : 0 ≤ n → n ≤ 9223372036854775807 → RT .u64 (.vu64 n)
  | f64 (bits : Nat) : f64IsFinite bits = true → RT .f64 (.vf64 bits)
  | char (c : Nat) : c < 128 → RT .char (.vchar c)
  | str (bs : List Nat) : isValidUtf8 bs = true → RT .str (.vstr bs)
  | bytes (bs : List Nat) : (∀ b ∈ bs, b < 256) → RT .bytes (.vbytes bs)
  | optNone (s : Shape) : RT (.option s) .vnone
  | optSome (s : Shape) (v : Value) : RT s v → encode v ≠ .ok (.atom nilBytes) →
      RT (.option s) (.vsome v)
  | unit : RT .unit .vunit
  | seq (s : Shape) (vs : List Value) : (∀ v ∈ vs, RT s v) → RT (.seq s) (.vseq vs)
  | tuple (ss : List Shape) (vs : List Value) : RTList ss vs → RT (.tuple ss) (.vtuple vs)
  | record (shapeFields : List (List Nat × Shape)) (valFields : List (List Nat × Value)) :
      (shapeFields.map Prod.fst).Nodup →
      RTFields shapeFields valFields →
      RT (.record shapeFields) (.vrecord valFields)
  | enum (variants : List (List Nat × VShape)) (name : List Nat) (vs : VShape) (p : VPayload) :
      isCamelIdent name = true →
      variants.find? (fun q => q.1 == name) = some (name, vs) →
      RTP vs p →
      RT (.enum variants) (.venum name p)

/-- Pointwise round-trippability of a fixed tuple's components. -/
inductive RTList : List Shape → List Value → Prop where
  | nil : RTList [] []
  | cons (s : Shape) (v : Value) (ss : List Shape) (vs : List Value) :
      RT s v → RTList ss vs → RTList (s :: ss) (v :: vs)

/-- Pointwise round-trippability of a record's fields: names agree
positionally and each value fits its field's shape. -/
inductive RTFields : List (List Nat × Shape) → List (List Nat × Value) → Prop where
  | nil : RTFields [] []
  | cons (n : List Nat) (s : Shape) (v : Value)
      (fields : List (List Nat × Shape)) (vals : List (List Nat × Value)) :
      RT s v → RTFields fields vals →
      RTFields ((n, s) :: fields) ((n, v) :: vals)

/-- Round-trippable enum payload against its variant's declared shape. -/
inductive RTP : VShape → VPayload → Prop where
  | unit : RTP .vsUnit .pUnit
  | newtype (s : Shape) (v : Value) : RT s v → RTP (.vsNewtype s) (.pNewtype v)
  | tuple (ss : List Shape) (vs : List Value) : RTList ss vs → RTP (.vsTuple ss) (.pTuple vs)
  | record (shapeFields : List (List Nat × Shape)) (valFields : List (List Nat × Value)) :
      (shapeFields.map Prod.fst).Nodup →
      RTFields shapeFields valFields →
      RTP (.vsRecord shapeFields) (.pRecord valFields)

end

theorem toCamelAux_underscore (cap : Bool) (l : List Nat) :
    toCamelAux cap (95 :: l) = toCamelAux true l := by
  simp [toCamelAux]

theorem toCamelAux_cons (cap : Bool) (b : Nat) (l : List Nat) (h : b ≠ 95) :
    toCamelAux cap (b :: l) = (if cap then upperByte b else b) :: toCamelAux false l := by
  simp [toCamelAux, h]

theorem toSnakeAux_upper (b : Nat) (l : List Nat) (h : isUpperByte b = true) :
    toSnakeAux true (b :: l) = 95 :: (b + 32) :: toSnakeAux true l := by
  simp [toSnakeAux, h]

theorem toSnakeAux_upper_start (b : Nat) (l : List Nat) (h : isUpperByte b = true) :
    toSnakeAux false (b :: l) = (b + 32) :: toSnakeAux true l := by
  simp [toSnakeAux, h]

theorem toSnakeAux_other (started : Bool) (b : Nat) (l : List Nat) (h : isUpperByte b = false) :
    toSnakeAux started (b :: l) = b :: toSnakeAux true l := by
  simp [toSnakeAux, h]

theorem upperByte_lowered (b : Nat) (h : isUpperByte b = true) : upperByte (b + 32) = b := by
  simp only [isUpperByte, Bool.and_eq_true, decide_eq_true_eq] at h
  simp only [upperByte, isLowerByte, Bool.and_eq_true, decide_eq_true_eq]
  rw [if_pos (by omega)]
  omega

theorem toCamel_toSnake_aux :
    ∀ bs : List Nat, (∀ b ∈ bs, isLowerByte b || isUpperByte b) →
      toCamelAux false (toSnakeAux true bs) = bs := by
  intro bs
  induction bs with
  | nil => intro _; rfl
  | cons b rest ih =>
    intro h
    have hb := h b (List.mem_cons_self _ _)
    have hrest : ∀ c ∈ rest, isLowerByte c || isUpperByte c := by
      intro c hc; exact h c (List.mem_cons_of_mem _ hc)
    by_cases hub : isUpperByte b = true
    · have hb' : 65 ≤ b ∧ b ≤ 90 := by
        simpa [isUpperByte] using hub
      have hb95 : b + 32 ≠ 95 := by omega
      rw [toSnakeAux_upper b _ hub, toCamelAux_underscore, toCamelAux_cons _ _ _ hb95,
        upperByte_lowered b hub, ih hrest, if_pos rfl]
    · have hlb : 97 ≤ b ∧ b ≤ 122 := by
        rcases Bool.or_eq_true_iff.mp hb with hl | hu
        · simpa [isLowerByte] using hl
        · exact absurd hu hub
      have hb95 : b ≠ 95 := by omega
      rw [toSnakeAux_other _ b _ (by simpa using hub), toCamelAux_cons _ _ _ hb95, ih hrest,
        if_neg (by simp)]

/-- On camel-case word-form identifiers the decode-side camel conversion
inverts the encode-side snake conversion. -/
theorem toCamel_toSnake (name : List Nat) (h : isCamelIdent name = true) :
    toCamelCase (toSnakeCase name) = name := by
  cases name with
  | nil => simp [isCamelIdent] at h
  | cons b rest =>
    simp only [isCamelIdent, Bool.and_eq_true, List.all_eq_true] at h
    obtain ⟨hub, hrest⟩ := h
    have hb' : 65 ≤ b ∧ b ≤ 90 := by
      simpa [isUpperByte] using hub
    have hb95 : b + 32 ≠ 95 := by omega
    rw [toSnakeCase, toCamelCase, toSnakeAux_upper_start b _ hub, toCamelAux_cons _ _ _ hb95,
      upperByte_lowered b hub, toCamel_toSnake_aux rest hrest, if_pos rfl]

theorem sizeOf_snd_lt_of_mem {α β : Type} [SizeOf α] [SizeOf β]
    {p : α × β} {l : List (α × β)} (h : p ∈ l) : sizeOf p.2 < sizeOf l := by
  induction l with
  | nil => simp at h
  | cons a l ih =>
    obtain ⟨x, y⟩ := a
    rcases List.mem_cons.mp h with rfl | h'
    · simp only [Prod.mk.sizeOf_spec, List.cons.sizeOf_spec]
      omega
    · have := ih h'
      simp only [List.cons.sizeOf_spec]
      omega

theorem utf8Encode_length (c : Nat) (h : 128 ≤ c) : 2 ≤ (utf8Encode c).length := by
  unfold utf8Encode
  rw [if_neg (by omega)]
  by_cases h2 : c < 2048
  · rw [if_pos h2]; simp
  · rw [if_neg h2]
    by_cases h3 : c < 65536
    · rw [if_pos h3]; simp
    · rw [if_neg h3]; simp

theorem utf8Run_some (state b s' : Nat) (l : List Nat) (h : utf8Step state b = some s') :
    utf8Run state (b :: l) = utf8Run s' l := by
  simp only [utf8Run, h]

theorem utf8Run_nil (state : Nat) : utf8Run state [] = decide (state = 0) := rfl

theorem utf8Step_ascii (b : Nat) (h : b < 128) : utf8Step 0 b = some 0 := by
  simp only [utf8Step]
  rw [if_pos h]

theorem utf8Step_lead2 (b : Nat) (h1 : 194 ≤ b) (h2 : b < 224) : utf8Step 0 b = some 1 := by
  simp only [utf8Step]
  rw [if_neg (by omega), if_neg (by omega), if_pos h2]

theorem utf8Step_leadE0 : utf8Step 0 224 = some 4 := rfl

theorem utf8Step_leadED : utf8Step 0 237 = some 5 := rfl

theorem utf8Step_lead3 (b : Nat) (h1 : 224 < b) (h2 : b < 240) (h3 : b ≠ 237) :
    utf8Step 0 b = some 2 := by
  simp only [utf8Step]
  rw [if_neg (by omega), if_neg (by omega), if_neg (by omega), if_neg (by omega), if_neg h3,
    if_pos h2]

theorem utf8Step_leadF0 : utf8Step 0 240 = some 6 := rfl

theorem utf8Step_lead4 (b : Nat) (h1 : 240 < b) (h2 : b < 244) : utf8Step 0 b = some 3 := by
  simp only [utf8Step]
  rw [if_neg (by omega), if_neg (by omega), if_neg (by omega), if_neg (by omega),
    if_neg (by omega), if_neg (by omega), if_neg (by omega), if_pos h2]

theorem utf8Step_leadF4 : utf8Step 0 244 = some 7 := rfl

theorem utf8Step_cont1 (b : Nat) (h1 : 128 ≤ b) (h2 : b ≤ 191) : utf8Step 1 b = some 0 := by
  simp only [utf8Step, isUtf8Cont]
  rw [if_pos (by simp only [Bool.and_eq_true, decide_eq_true_eq]; omega)]

theorem utf8Step_cont2 (b : Nat) (h1 : 128 ≤ b) (h2 : b ≤ 191) : utf8Step 2 b = some 1 := by
  simp only [utf8Step, isUtf8Cont]
  rw [if_pos (by simp only [Bool.and_eq_true, decide_eq_true_eq]; omega)]

theorem utf8Step_cont3 (b : Nat) (h1 : 128 ≤ b) (h2 : b ≤ 191) : utf8Step 3 b = some 2 := by
  simp only [utf8Step, isUtf8Cont]
  rw [if_pos (by simp only [Bool.and_eq_true, decide_eq_true_eq]; omega)]

theorem utf8Step_s4 (b : Nat) (h1 : 160 ≤ b) (h2 : b ≤ 191) : utf8Step 4 b = some 1 := by
  simp only [utf8Step]
  rw [if_pos (by simp only [Bool.and_eq_true, decide_eq_true_eq]; omega)]

theorem utf8Step_s5 (b : Nat) (h1 : 128 ≤ b) (h2 : b ≤ 159) : utf8Step 5 b = some 1 := by
  simp only [utf8Step]
  rw [if_pos (by simp only [Bool.and_eq_true, decide_eq_true_eq]; omega)]

theorem utf8Step_s6 (b : Nat) (h1 : 144 ≤ b) (h2 : b ≤ 191) : utf8Step 6 b = some 2 := by
  simp only [utf8Step]
  rw [if_pos (by simp only [Bool.and_eq_true, decide_eq_true_eq]; omega)]

theorem utf8Step_s7 (b : Nat) (h1 : 128 ≤ b) (h2 : b ≤ 143) : utf8Step 7 b = some 2 := by
  simp only [utf8Step]
  rw [if_pos (by simp only [Bool.and_eq_true, decide_eq_true_eq]; omega)]

theorem utf8Encode_ascii (c : Nat) (h : c < 128) : utf8Encode c = [c] := by
  simp [utf8Encode, h]

theorem isValidUtf8_single (c : Nat) (h : c < 128) : isValidUtf8 [c] = true := by
  unfold isValidUtf8
  rw [utf8Run_some 0 c 0 _ (utf8Step_ascii c h), utf8Run_nil]
  rfl

theorem utf8DecodeFirst_single (c : Nat) (h : c < 128) : utf8DecodeFirst [c] = some c := by
  simp [utf8DecodeFirst, h]

/-- The UTF-8 encoding of any Unicode scalar value passes `str::from_utf8`'s
validation (so a `String` built from a `char` always parses back). -/
theorem isValidUtf8_utf8Encode (c : Nat) (h : isScalarValue c = true) :
    isValidUtf8 (utf8Encode c) = true := by
  simp only [isScalarValue, Bool.and_eq_true, Bool.not_eq_true', Bool.and_eq_false_iff,
    decide_eq_true_eq, decide_eq_false_iff_not] at h
  have hA : c < 1114112 := h.1
  have hB : c < 55296 ∨ 57344 ≤ c := by rcases h.2 with h' | h' <;> omega
  have m1 : c % 64 < 64 := Nat.mod_lt _ (by omega)
  have m2 : (c / 64) % 64 < 64 := Nat.mod_lt _ (by omega)
  have m3 : (c / 4096) % 64 < 64 := Nat.mod_lt _ (by omega)
  unfold utf8Encode isValidUtf8
  by_cases h1 : c < 128
  · rw [if_pos h1, utf8Run_some 0 c 0 _ (utf8Step_ascii c h1), utf8Run_nil]
    rfl
  · rw [if_neg h1]
    by_cases h2 : c < 2048
    · rw [if_pos h2,
        utf8Run_some 0 _ 1 _ (utf8Step_lead2 _ (by omega) (by omega)),
        utf8Run_some 1 _ 0 _ (utf8Step_cont1 _ (by omega) (by omega)),
        utf8Run_nil]
      rfl
    · rw [if_neg h2]
      by_cases h3 : c < 65536
      · rw [if_pos h3]
        have hmid : utf8Run 1 [128 + c % 64] = true := by
          rw [utf8Run_some 1 _ 0 _ (utf8Step_cont1 _ (by omega) (by omega)), utf8Run_nil]
          rfl
        by_cases hE0 : c / 4096 = 0
        · rw [utf8Run_some 0 _ 4 _ (by rw [show 224 + c / 4096 = 224 by omega]; exact utf8Step_leadE0),
            utf8Run_some 4 _ 1 _ (utf8Step_s4 _ (by omega) (by omega)), hmid]
        · by_cases hED : c / 4096 = 13
          · rw [utf8Run_some 0 _ 5 _ (by rw [show 224 + c / 4096 = 237 by omega]; exact utf8Step_leadED),
              utf8Run_some 5 _ 1 _ (utf8Step_s5 _ (by omega) (by omega)), hmid]
          · rw [utf8Run_some 0 _ 2 _ (utf8Step_lead3 _ (by omega) (by omega) (by omega)),
              utf8Run_some 2 _ 1 _ (utf8Step_cont2 _ (by omega) (by omega)), hmid]
      · rw [if_neg h3]
        have hmid : utf8Run 2 [128 + (c / 64) % 64, 128 + c % 64] = true := by
          rw [utf8Run_some 2 _ 1 _ (utf8Step_cont2 _ (by omega) (by omega)),
            utf8Run_some 1 _ 0 _ (utf8Step_cont1 _ (by omega) (by omega)), utf8Run_nil]
          rfl
        by_cases hF0 : c / 262144 = 0
        · rw [utf8Run_some 0 _ 6 _ (by rw [show 240 + c / 262144 = 240 by omega]; exact utf8Step_leadF0),
            utf8Run_some 6 _ 2 _ (utf8Step_s6 _ (by omega) (by omega)), hmid]
        · by_cases hF4 : c / 262144 = 4
          · rw [utf8Run_some 0 _ 7 _ (by rw [show 240 + c / 262144 = 244 by omega]; exact utf8Step_leadF4),
              utf8Run_some 7 _ 2 _ (utf8Step_s7 _ (by omega) (by omega)), hmid]
          · rw [utf8Run_some 0 _ 3 _ (utf8Step_lead4 _ (by omega) (by omega)),
              utf8Run_some 3 _ 2 _ (utf8Step_cont3 _ (by omega) (by omega)), hmid]

theorem pullElements_take (n : Nat) :
    ∀ l : List Term, pullElements n ⟨l⟩ = (l.take n, ⟨l.drop n⟩) := by
  induction n with
  | zero => intro l; rfl
  | succ n ih =>
    intro l
    cases l with
    | nil => rfl
    | cons t rest => simp [pullElements, ListDeserializer.nextElement, ih rest]

theorem pullEntries_take (n : Nat) :
    ∀ entries : List (Term × Term),
      pullEntries n ⟨entries, none⟩ = .ok (entries.take n, ⟨entries.drop n, none⟩) := by
  induction n with
  | zero => intro entries; rfl
  | succ n ih =>
    intro entries
    cases entries with
    | nil => rfl
    | cons kv rest =>
      obtain ⟨k, v⟩ := kv
      simp [pullEntries, MapDeserializer.nextKey, MapDeserializer.nextValue, ih rest]

/-- Decoding any node other than the nil atom against an optional hint
wraps the inner decode in `Some` (`deserialize_option`'s `visit_some(self)`
arms, `de.rs:280-283`). -/
theorem decode_option_notNil (s : Shape) (t : Term) (ht : t ≠ .atom nilBytes) :
    decode (.option s) t = (decode s t).map .vsome := by
  cases t with
  | atom a =>
    have ha : ¬a = nilBytes := fun h => ht (by rw [h])
    simp only [decode]
    rw [if_neg ha]
    cases decode s (.atom a) <;> simp [Except.map]
  | fixInteger n =>
    simp only [decode]
    cases decode s (.fixInteger n) <;> simp [Except.map]
  | bigInteger n =>
    simp only [decode]
    cases decode s (.bigInteger n) <;> simp [Except.map]
  | float bits =>
    simp only [decode]
    cases decode s (.float bits) <;> simp [Except.map]
  | binary bs =>
    simp only [decode]
    cases decode s (.binary bs) <;> simp [Except.map]
  | list l =>
    simp only [decode]
    cases decode s (.list l) <;> simp [Except.map]
  | tuple es =>
    simp only [decode]
    cases decode s (.tuple es) <;> simp [Except.map]
  | map entries =>
    simp only [decode]
    cases decode s (.map entries) <;> simp [Except.map]

/-- Claim C2, counterexample: the Decoder reconstructs `Ok("test")` from the
Tuple form `{ok, <<"test">>}` but rejects the equivalent single-entry Map
form `#{ok => <<"test">>}` with `ExpectedAtomOrTuple` — `deserialize_enum`
(`de.rs:419-431`) has no Map arm, contradicting the claimed acceptance of
both wire shapes. -/
theorem c2_counterexample :
    decode (.enum [([79, 107], .vsNewtype .str)])
        (.tuple [.atom [111, 107], .binary [116, 101, 115, 116]])
      = .ok (.venum [79, 107] (.pNewtype (.vstr [116, 101, 115, 116]))) ∧
    decode (.enum [([79, 107], .vsNewtype .str)])
        (.map [(.atom [111, 107], .binary [116, 101, 115, 116])])
      = .error .ExpectedAtomOrTuple := by
  constructor
  · simp [decode, decodeVariantTuple, parseString, parseBinary, Except.map,
      show toCamelCase [111, 107] = [79, 107] from rfl,
      show isValidUtf8 [116, 101, 115, 116] = true from rfl]
  · simp [decode]

/-- Claim C2 as amended: when decoding an enum with a non-unit variant the
Decoder accepts only the Atom and two-element-Tuple wire shapes; a Map node
— whatever its entry count — is rejected with `ExpectedAtomOrTuple`, so the
single-entry Map form is not an accepted alternative representation. -/
theorem c2_enum_map_form_rejected (variants : List (List Nat × VShape))
    (entries : List (Term × Term)) :
    decode (.enum variants) (.map entries) = .error .ExpectedAtomOrTuple := by
  simp [decode]

/-- Claim C3, counterexample: decoding a List node whose cursor is abandoned
with one unconsumed element (a visitor that pulls nothing) succeeds with the
visitor's result instead of failing with `TooManyItems`, because
`deserialize_seq` never calls `ListDeserializer::end` (`de.rs:328`). -/
theorem c3_counterexample :
    deserializeSeqPulls 0 (.list [.atom nilBytes]) = .ok [] := rfl

/-- Claim C3 as amended: the leftover-elements check exists only on the Map
path — `deserialize_map` runs `MapDeserializer::end` after the visitor and
any unconsumed remainder fails with `TooManyItems`, while `deserialize_seq`
returns the visitor's result directly and leftover List elements are
silently ignored for every pull count. -/
theorem c3_leftover_check_map_only :
    (∀ (pulls : Nat) (entries : List (Term × Term)), pulls < entries.length →
        deserializeMapPulls pulls (.map entries) = .err .TooManyItems) ∧
    (∀ (pulls : Nat) (l : List Term),
        deserializeSeqPulls pulls (.list l) = .ok (l.take pulls)) := by
  constructor
  · intro pulls entries h
    simp only [deserializeMapPulls, pullEntries_take, MapDeserializer.endCheck]
    rw [if_neg (by simp [List.length_drop]; omega)]
  · intro pulls l
    simp [deserializeSeqPulls, pullElements_take]

/-- Witness for the amended claim C3 at a concrete input: a one-entry Map
with nothing pulled fails with `TooManyItems`. -/
theorem c3_witness :
    0 < [((Term.atom nilBytes, Term.atom nilBytes))].length ∧
    deserializeMapPulls 0 (.map [(.atom nilBytes, .atom nilBytes)]) = .err .TooManyItems :=
  ⟨by decide, c3_leftover_check_map_only.1 0 [(.atom nilBytes, .atom nilBytes)] (by decide)⟩

/-- Claim C4, counterexample: an explicitly requested fully generic decode
of a top-level Atom (or FixInteger, Float, Binary, List, Tuple, Map) node
does not succeed with any fallback mapping — `deserialize_any`
(`de.rs:130-135`) fails with `TypeHintsRequired` for every node. -/
theorem c4_counterexample :
    deserializeAny (.atom [116, 101, 115, 116]) = .error .TypeHintsRequired ∧
    deserializeAny (.fixInteger 1) = .error .TypeHintsRequired ∧
    deserializeAny (.float 0) = .error .TypeHintsRequired ∧
    deserializeAny (.binary [65]) = .error .TypeHintsRequired ∧
    deserializeAny (.list []) = .error .TypeHintsRequired ∧
    deserializeAny (.tuple []) = .error .TypeHintsRequired ∧
    deserializeAny (.map []) = .error .TypeHintsRequired :=
  ⟨rfl, rfl, rfl, rfl, rfl, rfl, rfl⟩

/-- Claim C4 as amended: a generic decode request without a type hint fails
with `TypeHintsRequired` unconditionally — there is no top-level fallback
mapping for any node kind. -/
theorem c4_generic_decode_always_fails (t : Term) :
    deserializeAny t = .error .TypeHintsRequired := rfl

/-- Claim C6: encoding `None` yields `Atom("nil")` and encoding `Some(v)`
yields `encode(v)` (`ser.rs:150-163`); decoding `Atom("nil")` against an
optional hint yields `None` and every other node yields
`Some(decode(node))` (`de.rs:271-285`); in particular `None : Option u8`
and `Some 0 : Option u8` encode as `Atom("nil")` and `FixInteger 0`. -/
theorem c6_option_mapping :
    encode .vnone = .ok (.atom nilBytes) ∧
    (∀ v : Value, encode (.vsome v) = encode v) ∧
    encode (.vsome (.vu8 0)) = .ok (.fixInteger 0) ∧
    (∀ s : Shape, decode (.option s) (.atom nilBytes) = .ok .vnone) ∧
    (∀ (s : Shape) (t : Term), t ≠ .atom nilBytes →
        decode (.option s) t = (decode s t).map .vsome) := by
  exact ⟨rfl, fun v => rfl, rfl, fun s => by simp [decode], decode_option_notNil⟩

/-- Witness for claim C6 at a concrete input: `FixInteger 0` is not the nil
atom, and decoding it against an optional `u8` hint yields `Some 0`. -/
theorem c6_witness :
    Term.fixInteger 0 ≠ Term.atom nilBytes ∧
    decode (.option .u8) (.fixInteger 0) = (decode .u8 (.fixInteger 0)).map .vsome ∧
    decode (.option .u8) (.fixInteger 0) = .ok (.vsome (.vu8 0)) := by
  refine ⟨by simp, c6_option_mapping.2.2.2.2 .u8 (.fixInteger 0) (by simp), ?_⟩
  rw [c6_option_mapping.2.2.2.2 .u8 (.fixInteger 0) (by simp)]
  simp [decode, parseInteger, Except.map]

/-- Claim C7: a Binary whose bytes are not valid UTF-8 fails against a
string target with `Utf8DecodeError` (`parse_string`, `de.rs:117-124`) but
succeeds against a byte-blob target with the raw bytes
(`deserialize_bytes`, `de.rs:257-262`). -/
theorem c7_utf8_boundary (bs : List Nat) (h : isValidUtf8 bs = false) :
    decode .str (.binary bs) = .error .Utf8DecodeError ∧
    decode .bytes (.binary bs) = .ok (.vbytes bs) := by
  constructor
  · simp [decode, parseString, parseBinary, h, Except.map]
  · simp [decode, parseBinary, Except.map]

/-- Witness for claim C7 at the concrete invalid byte `0xFF`. -/
theorem c7_witness :
    isValidUtf8 [255] = false ∧
    decode .str (.binary [255]) = .error .Utf8DecodeError ∧
    decode .bytes (.binary [255]) = .ok (.vbytes [255]) :=
  ⟨by decide, (c7_utf8_boundary [255] (by decide)).1, (c7_utf8_boundary [255] (by decide)).2⟩

/-- Claim C9: the map builder's split entry points panic — `serialize_key`
and `serialize_value` (`ser.rs:385-397`) abort with `panic!("Not
Implemented")` for every input, producing neither a Term nor an
`EncodeError`, while the combined `serialize_entry` path (`ser.rs:399-408`)
encodes both halves and records the pair. -/
theorem c9_map_key_value_panics :
    (∀ (m : MapSerializer) (key : Value),
        m.serializeKey key = .panicked "Not Implemented") ∧
    (∀ (m : MapSerializer) (value : Value),
        m.serializeValue value = .panicked "Not Implemented") ∧
    (∀ (m : MapSerializer) (key value : Value) (kt vt : Term),
        encode key = .ok kt → encode value = .ok vt →
        m.serializeEntry key value = .ok ⟨m.items ++ [(kt, vt)]⟩) := by
  refine ⟨fun m k => rfl, fun m v => rfl, fun m k v kt vt hk hv => ?_⟩
  simp [MapSerializer.serializeEntry, hk, hv]

/-- Witness for claim C9 at concrete inputs. -/
theorem c9_witness :
    MapSerializer.serializeKey ⟨[]⟩ (.vu8 0) = .panicked "Not Implemented" ∧
    MapSerializer.serializeValue ⟨[]⟩ (.vu8 0) = .panicked "Not Implemented" ∧
    MapSerializer.serializeEntry ⟨[]⟩ (.vu8 1) (.vbool true)
      = .ok ⟨[(.fixInteger 1, .atom trueBytes)]⟩ := by
  refine ⟨c9_map_key_value_panics.1 ⟨[]⟩ (.vu8 0), c9_map_key_value_panics.2.1 ⟨[]⟩ (.vu8 0), ?_⟩
  have := c9_map_key_value_panics.2.2 ⟨[]⟩ (.vu8 1) (.vbool true) (.fixInteger 1)
    (.atom trueBytes) rfl rfl
  simpa using this

/-- Claim C10: a char target accepts only a Binary whose validated UTF-8
content is exactly one byte long (`deserialize_char`, `de.rs:226-241`,
checks `string.len() == 1`, a byte count), and for every scalar value whose
UTF-8 encoding is longer than one byte — every non-ASCII character —
decoding its own encoding fails with `ExpectedChar`. -/
theorem c10_char_single_byte :
    (∀ (t : Term) (v : Value), decode .char t = .ok v →
        ∃ bs, t = .binary bs ∧ isValidUtf8 bs = true ∧ bs.length = 1) ∧
    (∀ c : Nat, encode (.vchar c) = .ok (.binary (utf8Encode c))) ∧
    (∀ c : Nat, isScalarValue c = true → 128 ≤ c →
        decode .char (.binary (utf8Encode c)) = .error .ExpectedChar) := by
  refine ⟨?_, fun c => rfl, ?_⟩
  · intro t v h
    cases t with
    | binary bs =>
      by_cases hv : isValidUtf8 bs
      · by_cases hl : bs.length = 1
        · exact ⟨bs, rfl, hv, hl⟩
        · exfalso
          simp [decode, parseString, parseBinary, hv, hl] at h
      · exfalso
        simp only [Bool.not_eq_true] at hv
        simp [decode, parseString, parseBinary, hv] at h
    | atom a => simp [decode, parseString, parseBinary] at h
    | fixInteger n => simp [decode, parseString, parseBinary] at h
    | bigInteger n => simp [decode, parseString, parseBinary] at h
    | float bits => simp [decode, parseString, parseBinary] at h
    | list l => simp [decode, parseString, parseBinary] at h
    | tuple es => simp [decode, parseString, parseBinary] at h
    | map entries => simp [decode, parseString, parseBinary] at h
  · intro c hs hc
    have hv := isValidUtf8_utf8Encode c hs
    have hl := utf8Encode_length c hc
    simp only [decode, parseString, parseBinary, hv, if_pos]
    rw [if_neg (by omega)]

/-- Witness for claim C10 at the concrete non-ASCII character `é`
(scalar value 233, two UTF-8 bytes). -/
theorem c10_witness :
    isScalarValue 233 = true ∧ (128 : Nat) ≤ 233 ∧
    decode .char (.binary (utf8Encode 233)) = .error .ExpectedChar :=
  ⟨by decide, by decide, c10_char_single_byte.2.2 233 (by decide) (by decide)⟩

theorem except_bind_ok {ε α β : Type} (a : α) (f : α → Except ε β) :
    (Except.ok a >>= f) = f a := rfl

theorem except_bind_err {ε α β : Type} (e : ε) (f : α → Except ε β) :
    ((Except.error e : Except ε α) >>= f) = Except.error e := rfl

theorem exceptBind_ok {ε α β : Type} (a : α) (f : α → Except ε β) :
    (Except.ok a).bind f = f a := rfl

/-- Claim C5: unsigned 8/16-bit encodes are FixInteger nodes and unsigned
32/64-bit encodes are BigInteger nodes (`ser.rs:108-125`); on decode a
FixInteger narrows through the range-checked cast (`T::from_i32`,
`IntegerConvertError` on overflow), a BigInteger narrows through a 64-bit
conversion (`to_i64`) followed by the same range check — so a BigInteger
outside an 8-bit target's range fails with `IntegerConvertError` — and
integer nodes are never accepted by a float target nor Float nodes by an
integer target (`de.rs:69-108`). -/
theorem c5_integer_widths :
    (∀ n : Int, encode (.vu8 n) = .ok (.fixInteger n)) ∧
    (∀ n : Int, encode (.vu16 n) = .ok (.fixInteger n)) ∧
    (∀ n : Int, encode (.vu32 n) = .ok (.bigInteger n)) ∧
    (∀ n : Int, encode (.vu64 n) = .ok (.bigInteger n)) ∧
    (∀ lo hi v : Int, parseInteger lo hi (.fixInteger v)
        = if lo ≤ v ∧ v ≤ hi then .ok v else .error .IntegerConvertError) ∧
    (∀ lo hi v : Int, -9223372036854775808 ≤ v → v ≤ 9223372036854775807 →
        parseInteger lo hi (.bigInteger v)
          = if lo ≤ v ∧ v ≤ hi then .ok v else .error .IntegerConvertError) ∧
    (∀ lo hi v : Int, v < -9223372036854775808 ∨ 9223372036854775807 < v →
        parseInteger lo hi (.bigInteger v) = .error .IntegerConvertError) ∧
    (∀ v : Int, ¬(0 ≤ v ∧ v ≤ 255) →
        decode .u8 (.bigInteger v) = .error .IntegerConvertError) ∧
    (∀ (lo hi : Int) (bits : Nat), parseInteger lo hi (.float bits) = .error .ExpectedFixInteger) ∧
    (∀ v : Int, decode .f64 (.fixInteger v) = .error .ExpectedFloat) ∧
    (∀ v : Int, decode .f64 (.bigInteger v) = .error .ExpectedFloat) := by
  refine ⟨fun n => rfl, fun n => rfl, fun n => rfl, fun n => rfl, fun lo hi v => rfl,
    ?_, ?_, ?_, fun lo hi bits => rfl, fun v => by simp [decode, parseFloat, Except.map],
    fun v => by simp [decode, parseFloat, Except.map]⟩
  · intro lo hi v h1 h2
    simp only [parseInteger, toI64]
    rw [if_pos ⟨h1, h2⟩]
  · intro lo hi v h
    simp only [parseInteger, toI64]
    rw [if_neg (by omega)]
  · intro v h
    simp only [decode, parseInteger, toI64]
    by_cases hi : -9223372036854775808 ≤ v ∧ v ≤ 9223372036854775807
    · rw [if_pos hi]
      simp only []
      rw [if_neg (by omega)]
      rfl
    · rw [if_neg hi]
      rfl

/-- Witness for claim C5 at concrete inputs: 129 and 65530 encode as in the
spec's scenario, an in-range FixInteger narrows, and BigInteger 300 decoded
into `u8` overflows. -/
theorem c5_witness :
    encode (.vu8 129) = .ok (.fixInteger 129) ∧
    encode (.vu16 65530) = .ok (.fixInteger 65530) ∧
    encode (.vu32 65530) = .ok (.bigInteger 65530) ∧
    encode (.vu64 65530) = .ok (.bigInteger 65530) ∧
    parseInteger 0 255 (.fixInteger 129) = .ok 129 ∧
    parseInteger 0 255 (.bigInteger 300) = .error .IntegerConvertError ∧
    decode .u8 (.bigInteger 300) = .error .IntegerConvertError ∧
    decode .f64 (.fixInteger 1) = .error .ExpectedFloat := by
  refine ⟨c5_integer_widths.1 129, c5_integer_widths.2.1 65530, c5_integer_widths.2.2.1 65530,
    c5_integer_widths.2.2.2.1 65530, ?_, ?_,
    c5_integer_widths.2.2.2.2.2.2.2.1 300 (by omega),
    c5_integer_widths.2.2.2.2.2.2.2.2.2.1 1⟩
  · rw [c5_integer_widths.2.2.2.2.1 0 255 129]
    rfl
  · rw [c5_integer_widths.2.2.2.2.2.1 0 255 300 (by omega) (by omega)]
    rfl

/-- Claim C8: case conversion happens only at the enum variant-name Atom
boundary — every variant tag is snake-cased on encode
(`ser.rs:182-189, 206-221`) and camel-cased back on decode
(`VariantNameDeserializer::deserialize_any`, `de.rs:655-666`; on word-form
identifiers the two conversions invert each other) — while record field
names are taken verbatim from the type description on encode
(`ser.rs:422-430`) and returned verbatim by `deserialize_identifier` on
decode (`de.rs:434-442`). -/
theorem c8_case_conversion :
    (∀ name : List Nat, encode (.venum name .pUnit) = .ok (.atom (toSnakeCase name))) ∧
    (∀ (name : List Nat) (v : Value) (t : Term), encode v = .ok t →
        encode (.venum name (.pNewtype v)) = .ok (.tuple [.atom (toSnakeCase name), t])) ∧
    (∀ a : List Nat, variantNameDeserializeAny (.atom a) = .ok (toCamelCase a)) ∧
    (∀ name : List Nat, isCamelIdent name = true → toCamelCase (toSnakeCase name) = name) ∧
    (∀ a : List Nat, deserializeIdentifier (.atom a) = .ok a) ∧
    (∀ (fs : List (List Nat × Value)) (es : List (Term × Term)), encodeFields fs = .ok es →
        es.map Prod.fst = fs.map (fun p => Term.atom p.1)) := by
  refine ⟨fun name => rfl, ?_, fun a => rfl, toCamel_toSnake, fun a => rfl, ?_⟩
  · intro name v t hv
    simp [encode, hv, except_bind_ok]
  · intro fs
    induction fs with
    | nil =>
      intro es h
      simp only [encodeFields] at h
      cases h
      rfl
    | cons p rest ih =>
      intro es h
      obtain ⟨n, v⟩ := p
      simp only [encodeFields] at h
      cases hv : encode v with
      | error e => rw [hv] at h; simp [except_bind_err] at h
      | ok t =>
        rw [hv] at h
        cases hr : encodeFields rest with
        | error e => rw [hr] at h; simp [except_bind_ok, except_bind_err] at h
        | ok es' =>
          rw [hr] at h
          simp only [except_bind_ok] at h
          cases h
          simp [ih es' hr]

/-- Witness for claim C8 at the concrete variant name `AnOption` and the
concrete record field `unsigned8`: the tag goes out as `an_option` and comes
back as `AnOption`; the field atom is untouched in both directions. -/
theorem c8_witness :
    encode (.venum [65, 110, 79, 112, 116, 105, 111, 110] .pUnit)
      = .ok (.atom (toSnakeCase [65, 110, 79, 112, 116, 105, 111, 110])) ∧
    toSnakeCase [65, 110, 79, 112, 116, 105, 111, 110]
      = [97, 110, 95, 111, 112, 116, 105, 111, 110] ∧
    isCamelIdent [65, 110, 79, 112, 116, 105, 111, 110] = true ∧
    toCamelCase (toSnakeCase [65, 110, 79, 112, 116, 105, 111, 110])
      = [65, 110, 79, 112, 116, 105, 111, 110] ∧
    deserializeIdentifier (.atom [117, 110, 115, 105, 103, 110, 101, 100, 56])
      = .ok [117, 110, 115, 105, 103, 110, 101, 100, 56] ∧
    encodeFields [([117, 110, 115, 105, 103, 110, 101, 100, 56], .vu8 129)]
      = .ok [(.atom [117, 110, 115, 105, 103, 110, 101, 100, 56], .fixInteger 129)] ∧
    [((Term.atom [117, 110, 115, 105, 103, 110, 101, 100, 56], Term.fixInteger 129))].map Prod.fst
      = [([117, 110, 115, 105, 103, 110, 101, 100, 56], Value.vu8 129)].map
          (fun p => Term.atom p.1) := by
  refine ⟨c8_case_conversion.1 _, by decide, by decide,
    c8_case_conversion.2.2.2.1 _ (by decide), c8_case_conversion.2.2.2.2.1 _, ?_, ?_⟩
  · simp [encodeFields, encode, except_bind_ok]
  · exact c8_case_conversion.2.2.2.2.2 _ _ (by simp [encodeFields, encode, except_bind_ok])

theorem encodeList_decodeSeq (s : Shape) :
    ∀ vs : List Value, (∀ v ∈ vs, ∃ t, encode v = .ok t ∧ decode s t = .ok v) →
      ∃ ts, encodeList vs = .ok ts ∧ decodeSeqElems s ts = .ok vs := by
  intro vs
  induction vs with
  | nil => exact fun _ => ⟨[], by simp [encodeList], by simp [decodeSeqElems]⟩
  | cons v rest ih =>
    intro h
    obtain ⟨t, het, hdt⟩ := h v (List.mem_cons_self _ _)
    obtain ⟨ts, hets, hdts⟩ := ih (fun w hw => h w (List.mem_cons_of_mem _ hw))
    exact ⟨t :: ts, by simp [encodeList, het, hets, except_bind_ok],
      by simp [decodeSeqElems, hdt, hdts]⟩

theorem encodeList_decodeTuple (ss : List Shape) (vs : List Value)
    (h : List.Forall₂ (fun sh v => ∃ t, encode v = .ok t ∧ decode sh t = .ok v) ss vs) :
    ∃ ts, encodeList vs = .ok ts ∧ ts.length = ss.length ∧ decodeTupleElems ss ts = .ok vs := by
  induction h with
  | nil => exact ⟨[], by simp [encodeList], rfl, by simp [decodeTupleElems]⟩
  | cons hp hrest ih =>
    obtain ⟨t, het, hdt⟩ := hp
    obtain ⟨ts, hets, hlen, hdts⟩ := ih
    exact ⟨t :: ts, by simp [encodeList, het, hets, except_bind_ok],
      by simp [hlen], by simp [decodeTupleElems, hdt, hdts]⟩

theorem find?_cons_pos {α : Type} (f : α → Bool) (a : α) (l : List α) (h : f a = true) :
    List.find? f (a :: l) = some a := by
  simp [List.find?_cons, h]

theorem find?_cons_neg {α : Type} (f : α → Bool) (a : α) (l : List α) (h : f a = false) :
    List.find? f (a :: l) = List.find? f l := by
  simp [List.find?_cons, h]

theorem find?_of_nodup_mem {β : Type} (fields : List (List Nat × β)) (n : List Nat) (b : β)
    (hnd : (fields.map Prod.fst).Nodup) (hmem : (n, b) ∈ fields) :
    fields.find? (fun p => p.1 == n) = some (n, b) := by
  induction fields with
  | nil => simp at hmem
  | cons p rest ih =>
    obtain ⟨m, c⟩ := p
    simp only [List.map_cons, List.nodup_cons] at hnd
    rcases List.mem_cons.mp hmem with heq | hmem'
    · obtain ⟨rfl, rfl⟩ := Prod.mk.injEq .. ▸ heq
      rw [List.find?_cons_of_pos _ (by simp)]
    · have hm : (m == n) = false := by
        simp only [beq_eq_false_iff_ne, ne_eq]
        intro hEq
        subst hEq
        exact hnd.1 (List.mem_map.mpr ⟨(m, b), hmem', rfl⟩)
      rw [List.find?_cons_of_neg _ (by simp [hm])]
      exact ih hnd.2 hmem'

theorem alreadySet_initAcc (fields : List (List Nat × Shape)) (name : List Nat) :
    alreadySet (initAcc fields) name = false := by
  induction fields with
  | nil => rfl
  | cons p rest ih =>
    by_cases hb : (p.1 == name) = true
    · simp [alreadySet, accGet, initAcc, List.find?_cons_of_pos, hb]
    · simp only [alreadySet, accGet, initAcc, List.map_cons] at ih ⊢
      rw [List.find?_cons_of_neg _ (by simpa using hb)]
      exact ih

theorem accSet_cons (p : List Nat × Option Value) (acc : List (List Nat × Option Value))
    (name : List Nat) (val : Value) :
    accSet (p :: acc) name val
      = (if p.1 == name then (p.1, some val) else p) :: accSet acc name val := rfl

theorem accSet_absent (acc : List (List Nat × Option Value)) (name : List Nat) (val : Value)
    (h : ∀ p ∈ acc, p.1 ≠ name) : accSet acc name val = acc := by
  induction acc with
  | nil => rfl
  | cons p rest ih =>
    rw [accSet_cons, if_neg (by simp [h p (List.mem_cons_self _ _)]),
      ih (fun q hq => h q (List.mem_cons_of_mem _ hq))]

theorem accGet_accSet_ne (acc : List (List Nat × Option Value)) (n m : List Nat) (val : Value)
    (h : m ≠ n) : accGet (accSet acc n val) m = accGet acc m := by
  induction acc with
  | nil => rfl
  | cons p rest ih =>
    rw [accSet_cons]
    by_cases hbn : (p.1 == n) = true
    · rw [if_pos hbn]
      by_cases hb : (p.1 == m) = true
      · have hm : p.1 = m := by simpa using hb
        have hn2 : p.1 = n := by simpa using hbn
        exact absurd (by rw [← hm, hn2]) h
      · unfold accGet
        rw [find?_cons_neg (fun q => q.1 == m) ((p.1, some val)) (accSet rest n val)
            (by simpa using hb),
          find?_cons_neg (fun q => q.1 == m) p rest (by simpa using hb)]
        exact ih
    · rw [if_neg hbn]
      unfold accGet
      by_cases hb : (p.1 == m) = true
      · rw [find?_cons_pos (fun q => q.1 == m) p (accSet rest n val) hb,
          find?_cons_pos (fun q => q.1 == m) p rest hb]
      · rw [find?_cons_neg (fun q => q.1 == m) p (accSet rest n val) (by simpa using hb),
          find?_cons_neg (fun q => q.1 == m) p rest (by simpa using hb)]
        exact ih

theorem alreadySet_accSet_ne (acc : List (List Nat × Option Value)) (n m : List Nat)
    (val : Value) (h : m ≠ n) : alreadySet (accSet acc n val) m = alreadySet acc m := by
  simp [alreadySet, accGet_accSet_ne acc n m val h]

theorem decodeKnownField_found (fields : List (List Nat × Shape)) (name : List Nat) (s : Shape)
    (t : Term) (val : Value) (acc : List (List Nat × Option Value))
    (hf : fields.find? (fun p => p.1 == name) = some (name, s))
    (hset : alreadySet acc name = false)
    (hdec : decode s t = .ok val) :
    decodeKnownField fields name t acc = .ok (some (accSet acc name val)) := by
  induction fields with
  | nil => simp at hf
  | cons p rest ih =>
    obtain ⟨fn, s'⟩ := p
    by_cases hb : (fn == name) = true
    · rw [List.find?_cons_of_pos _ (by simpa using hb)] at hf
      simp only [Option.some.injEq, Prod.mk.injEq] at hf
      obtain ⟨rfl, rfl⟩ := hf
      simp [decodeKnownField, hb, hset, hdec]
    · rw [List.find?_cons_of_neg _ (by simpa using hb)] at hf
      simp only [decodeKnownField, hb]
      rw [if_neg (by simp [hb])]
      exact ih hf

theorem decodeStructEntries_todo (fields : List (List Nat × Shape)) :
    ∀ (todo : List (List Nat × Term × Value)) (acc : List (List Nat × Option Value)),
      (∀ x ∈ todo, ∃ s, fields.find? (fun p => p.1 == x.1) = some (x.1, s) ∧
          decode s x.2.1 = .ok x.2.2) →
      (∀ x ∈ todo, alreadySet acc x.1 = false) →
      (todo.map (fun x => x.1)).Nodup →
      decodeStructEntries fields (todo.map fun x => (.atom x.1, x.2.1)) acc
        = .ok (todo.foldl (fun a x => accSet a x.1 x.2.2) acc) := by
  intro todo
  induction todo with
  | nil => intro acc _ _ _; simp [decodeStructEntries]
  | cons x rest ih =>
    intro acc h1 h2 h3
    obtain ⟨n, t, v⟩ := x
    obtain ⟨s, hf, hd⟩ := h1 _ (List.mem_cons_self _ _)
    have hstep := decodeKnownField_found fields n s t v acc hf (h2 _ (List.mem_cons_self _ _)) hd
    simp only [List.map_cons, decodeStructEntries, hstep, List.foldl_cons]
    simp only [List.map_cons, List.nodup_cons] at h3
    refine ih (accSet acc n v) (fun y hy => h1 y (List.mem_cons_of_mem _ hy)) ?_ h3.2
    intro y hy
    have hyn : y.1 ≠ n := by
      intro hEq
      exact h3.1 (hEq ▸ List.mem_map.mpr ⟨y, hy, rfl⟩)
    rw [alreadySet_accSet_ne acc n y.1 v hyn]
    exact h2 y (List.mem_cons_of_mem _ hy)

theorem foldl_accSet_cons (head : List Nat × Option Value) :
    ∀ (todo : List (List Nat × Term × Value)) (acc : List (List Nat × Option Value)),
      (∀ x ∈ todo, x.1 ≠ head.1) →
      todo.foldl (fun a x => accSet a x.1 x.2.2) (head :: acc)
        = head :: todo.foldl (fun a x => accSet a x.1 x.2.2) acc := by
  intro todo
  induction todo with
  | nil => intro acc _; rfl
  | cons x rest ih =>
    intro acc h
    simp only [List.foldl_cons, accSet_cons]
    rw [if_neg (by simp; exact fun hEq => h x (List.mem_cons_self _ _) hEq.symm)]
    exact ih _ (fun y hy => h y (List.mem_cons_of_mem _ hy))

theorem allSome_foldl_initAcc :
    ∀ (fields : List (List Nat × Shape)) (todo : List (List Nat × Term × Value)),
      todo.map (fun x => x.1) = fields.map Prod.fst →
      (todo.map (fun x => x.1)).Nodup →
      allSome (todo.foldl (fun a x => accSet a x.1 x.2.2) (initAcc fields))
        = some (todo.map fun x => (x.1, x.2.2)) := by
  intro fields
  induction fields with
  | nil =>
    intro todo hmap _
    have : todo = [] := by
      cases todo with
      | nil => rfl
      | cons x rest => simp at hmap
    subst this
    rfl
  | cons f fs ih =>
    intro todo hmap hnd
    cases todo with
    | nil => simp at hmap
    | cons x rest =>
      obtain ⟨n, t, v⟩ := x
      obtain ⟨fn, s⟩ := f
      simp only [List.map_cons, List.cons.injEq] at hmap
      obtain ⟨hn, hrest⟩ := hmap
      subst hn
      simp only [List.map_cons, List.nodup_cons] at hnd
      have hnotin : ∀ p ∈ initAcc fs, p.1 ≠ n := by
        intro p hp hEq
        apply hnd.1
        rw [hrest]
        obtain ⟨q, hq, hpq⟩ := List.mem_map.mp hp
        rw [← hEq, ← hpq]
        exact List.mem_map.mpr ⟨q, hq, rfl⟩
      have hstep1 : accSet (initAcc ((n, s) :: fs)) n v = (n, some v) :: initAcc fs := by
        have : initAcc ((n, s) :: fs) = (n, Option.none) :: initAcc fs := rfl
        rw [this, accSet_cons, if_pos (by simp), accSet_absent _ _ _ hnotin]
      have hrestne : ∀ x ∈ rest, x.1 ≠ ((n, some v) : List Nat × Option Value).1 := by
        intro x hx hEq
        have hEq' : x.1 = n := hEq
        apply hnd.1
        rw [← hEq']
        exact List.mem_map.mpr ⟨x, hx, rfl⟩
      rw [List.foldl_cons, hstep1, foldl_accSet_cons _ rest _ hrestne]
      simp only [List.map_cons, allSome, ih rest hrest hnd.2]
      rfl

theorem encodeFields_todo (sf : List (List Nat × Shape)) (vf : List (List Nat × Value))
    (h : List.Forall₂ (fun sp vp => sp.1 = vp.1 ∧
        ∃ t, encode vp.2 = .ok t ∧ decode sp.2 t = .ok vp.2) sf vf) :
    ∃ todo : List (List Nat × Term × Value),
      todo.map (fun x => (x.1, x.2.2)) = vf ∧
      todo.map (fun x => x.1) = sf.map Prod.fst ∧
      encodeFields vf = .ok (todo.map fun x => (.atom x.1, x.2.1)) ∧
      (∀ x ∈ todo, ∃ s, (x.1, s) ∈ sf ∧ decode s x.2.1 = .ok x.2.2) := by
  induction h with
  | nil => exact ⟨[], rfl, rfl, by simp [encodeFields], by simp⟩
  | @cons sp vp sfr vfr hp hrest ih =>
    obtain ⟨sn, ssh⟩ := sp
    obtain ⟨vn, vv⟩ := vp
    obtain ⟨hname, t, het, hdt⟩ := hp
    obtain ⟨todo, h1, h2, h3, h4⟩ := ih
    have hname' : sn = vn := hname
    refine ⟨(vn, t, vv) :: todo, by simp [h1], by simp [h2, hname'], ?_, ?_⟩
    · simp [encodeFields, het, h3, except_bind_ok]
    · intro x hx
      rcases List.mem_cons.mp hx with rfl | hx'
      · refine ⟨ssh, ?_, hdt⟩
        have hname' : vn = sn := by exact hname.symm
        rw [hname']
        exact List.mem_cons_self _ _
      · obtain ⟨s, hmem, hdec⟩ := h4 x hx'
        exact ⟨s, List.mem_cons_of_mem _ hmem, hdec⟩

theorem record_roundtrip (sf : List (List Nat × Shape)) (vf : List (List Nat × Value))
    (hnd : (sf.map Prod.fst).Nodup)
    (h : List.Forall₂ (fun sp vp => sp.1 = vp.1 ∧
        ∃ t, encode vp.2 = .ok t ∧ decode sp.2 t = .ok vp.2) sf vf) :
    ∃ es acc, encodeFields vf = .ok es ∧
      decodeStructEntries sf es (initAcc sf) = .ok acc ∧
      allSome acc = some vf := by
  obtain ⟨todo, h1, h2, h3, h4⟩ := encodeFields_todo sf vf h
  refine ⟨List.map (fun x => (Term.atom x.1, x.2.1)) todo,
    todo.foldl (fun a x => accSet a x.1 x.2.2) (initAcc sf), h3, ?_, ?_⟩
  · apply decodeStructEntries_todo
    · intro x hx
      obtain ⟨s, hmem, hdec⟩ := h4 x hx
      exact ⟨s, find?_of_nodup_mem sf x.1 s hnd hmem, hdec⟩
    · intro x _
      exact alreadySet_initAcc sf x.1
    · rw [h2]
      exact hnd
  · rw [allSome_foldl_initAcc sf todo h2 (by rw [h2]; exact hnd), h1]

theorem rtList_zip : ∀ {ss : List Shape} {vs : List Value}, RTList ss vs →
    ss.length = vs.length ∧ ∀ p ∈ ss.zip vs, RT p.1 p.2 := by
  intro ss
  induction ss with
  | nil =>
    intro vs h
    cases h
    exact ⟨rfl, by simp⟩
  | cons s ss' ih =>
    intro vs h
    cases h with
    | cons _ v _ vs' hsv hrest =>
      obtain ⟨hlen, hzip⟩ := ih hrest
      refine ⟨by simp [hlen], ?_⟩
      intro p hp
      rcases List.mem_cons.mp hp with rfl | hp'
      · exact hsv
      · exact hzip p hp'

theorem rtFields_zip : ∀ {sf : List (List Nat × Shape)} {vf : List (List Nat × Value)},
    RTFields sf vf →
    sf.map Prod.fst = vf.map Prod.fst ∧ sf.length = vf.length ∧
      ∀ p ∈ sf.zip vf, p.1.1 = p.2.1 ∧ RT p.1.2 p.2.2 := by
  intro sf
  induction sf with
  | nil =>
    intro vf h
    cases h
    exact ⟨rfl, rfl, by simp⟩
  | cons f sf' ih =>
    intro vf h
    cases h with
    | cons n s v _ vals hsv hrest =>
      obtain ⟨hmapEq, hlen, hzip⟩ := ih hrest
      refine ⟨by simp [hmapEq], by simp [hlen], ?_⟩
      intro p hp
      rcases List.mem_cons.mp hp with rfl | hp'
      · exact ⟨rfl, hsv⟩
      · exact hzip p hp'

theorem decodeVariantAtom_found (variants : List (List Nat × VShape)) (name : List Nat)
    (hf : variants.find? (fun q => q.1 == name) = some (name, .vsUnit)) :
    decodeVariantAtom variants name = .ok (.venum name .pUnit) := by
  induction variants with
  | nil => exact absurd hf (by simp [List.find?])
  | cons q rest ih =>
    obtain ⟨m, ws⟩ := q
    by_cases hb : (m == name) = true
    · rw [find?_cons_pos (fun q => q.1 == name) (m, ws) rest (by simpa using hb)] at hf
      simp only [Option.some.injEq, Prod.mk.injEq] at hf
      obtain ⟨rfl, rfl⟩ := hf
      simp [decodeVariantAtom, hb]
    · rw [find?_cons_neg (fun q => q.1 == name) (m, ws) rest (by simpa using hb)] at hf
      simp only [decodeVariantAtom, hb]
      rw [if_neg (by simp [hb])]
      exact ih hf

theorem decodeVariantTuple_found_newtype (variants : List (List Nat × VShape))
    (name : List Nat) (s' : Shape) (t : Term)
    (hf : variants.find? (fun q => q.1 == name) = some (name, .vsNewtype s')) :
    decodeVariantTuple variants name t
      = match decode s' t with
        | .ok v => .ok (.venum name (.pNewtype v))
        | .error e => .error e := by
  induction variants with
  | nil => exact absurd hf (by simp [List.find?])
  | cons q rest ih =>
    obtain ⟨m, ws⟩ := q
    by_cases hb : (m == name) = true
    · rw [find?_cons_pos (fun q => q.1 == name) (m, ws) rest (by simpa using hb)] at hf
      simp only [Option.some.injEq, Prod.mk.injEq] at hf
      obtain ⟨rfl, rfl⟩ := hf
      rw [decodeVariantTuple.eq_def]
      simp [hb]
    · rw [find?_cons_neg (fun q => q.1 == name) (m, ws) rest (by simpa using hb)] at hf
      rw [decodeVariantTuple.eq_def]
      simp only [Bool.not_eq_true] at hb
      simp only [hb, Bool.false_eq_true, if_false]
      exact ih hf

theorem decodeVariantTuple_found_tuple (variants : List (List Nat × VShape))
    (name : List Nat) (ss : List Shape) (es : List Term)
    (hf : variants.find? (fun q => q.1 == name) = some (name, .vsTuple ss)) :
    decodeVariantTuple variants name (.tuple es)
      = if es.length ≠ ss.length then .error .WrongTupleLength
        else
          match decodeTupleElems ss es with
          | .ok vals => .ok (.venum name (.pTuple vals))
          | .error e => .error e := by
  induction variants with
  | nil => exact absurd hf (by simp [List.find?])
  | cons q rest ih =>
    obtain ⟨m, ws⟩ := q
    by_cases hb : (m == name) = true
    · rw [find?_cons_pos (fun q => q.1 == name) (m, ws) rest (by simpa using hb)] at hf
      simp only [Option.some.injEq, Prod.mk.injEq] at hf
      obtain ⟨rfl, rfl⟩ := hf
      rw [decodeVariantTuple.eq_def]
      simp [hb]
    · rw [find?_cons_neg (fun q => q.1 == name) (m, ws) rest (by simpa using hb)] at hf
      rw [decodeVariantTuple.eq_def]
      simp only [Bool.not_eq_true] at hb
      simp only [hb, Bool.false_eq_true, if_false]
      exact ih hf

theorem decodeVariantTuple_found_record (variants : List (List Nat × VShape))
    (name : List Nat) (fs : List (List Nat × Shape)) (entries : List (Term × Term))
    (hf : variants.find? (fun q => q.1 == name) = some (name, .vsRecord fs)) :
    decodeVariantTuple variants name (.map entries)
      = match decodeStructEntries fs entries (initAcc fs) with
        | .error e => .error e
        | .ok acc =>
          match allSome acc with
          | some vals => .ok (.venum name (.pRecord vals))
          | none => .error (.Message missingFieldMsg) := by
  induction variants with
  | nil => exact absurd hf (by simp [List.find?])
  | cons q rest ih =>
    obtain ⟨m, ws⟩ := q
    by_cases hb : (m == name) = true
    · rw [find?_cons_pos (fun q => q.1 == name) (m, ws) rest (by simpa using hb)] at hf
      simp only [Option.some.injEq, Prod.mk.injEq] at hf
      obtain ⟨rfl, rfl⟩ := hf
      rw [decodeVariantTuple.eq_def]
      simp [hb]
    · rw [find?_cons_neg (fun q => q.1 == name) (m, ws) rest (by simpa using hb)] at hf
      rw [decodeVariantTuple.eq_def]
      simp only [Bool.not_eq_true] at hb
      simp only [hb, Bool.false_eq_true, if_false]
      exact ih hf

/-- The round trip: a round-trippable value encodes successfully and the
Decoder, driven by the value's shape hint over the encoded node, returns the
value unchanged.  By well-founded recursion on the value. -/
theorem roundTrip (v : Value) (s : Shape) (h : RT s v) :
    ∃ t, encode v = .ok t ∧ decode s t = .ok v := by
  cases h with
  | bool b =>
    cases b
    · exact ⟨.atom falseBytes, rfl, by simp [decode, trueBytes, falseBytes]⟩
    · exact ⟨.atom trueBytes, rfl, by simp [decode]⟩
  | i8 n h1 h2 =>
    refine ⟨.fixInteger n, rfl, ?_⟩
    simp only [decode, parseInteger]
    rw [if_pos ⟨h1, h2⟩]
    rfl
  | i16 n h1 h2 =>
    refine ⟨.fixInteger n, rfl, ?_⟩
    simp only [decode, parseInteger]
    rw [if_pos ⟨h1, h2⟩]
    rfl
  | i32 n h1 h2 =>
    refine ⟨.fixInteger n, rfl, ?_⟩
    simp only [decode, parseInteger]
    rw [if_pos ⟨h1, h2⟩]
    rfl
  | i64 n h1 h2 =>
    refine ⟨.bigInteger n, rfl, ?_⟩
    simp only [decode, parseInteger, toI64]
    rw [if_pos ⟨h1, h2⟩]
    simp only []
    rw [if_pos ⟨h1, h2⟩]
    rfl
  | u8 n h1 h2 =>
    refine ⟨.fixInteger n, rfl, ?_⟩
    simp only [decode, parseInteger]
    rw [if_pos ⟨h1, h2⟩]
    rfl
  | u16 n h1 h2 =>
    refine ⟨.fixInteger n, rfl, ?_⟩
    simp only [decode, parseInteger]
    rw [if_pos ⟨h1, h2⟩]
    rfl
  | u32 n h1 h2 =>
    refine ⟨.bigInteger n, rfl, ?_⟩
    simp only [decode, parseInteger, toI64]
    rw [if_pos (by omega)]
    simp only []
    rw [if_pos ⟨h1, by omega⟩]
    rfl
  | u64 n h1 h2 =>
    refine ⟨.bigInteger n, rfl, ?_⟩
    simp only [decode, parseInteger, toI64]
    rw [if_pos (by omega)]
    simp only []
    rw [if_pos ⟨h1, by omega⟩]
    rfl
  | f64 bits hf =>
    exact ⟨.float bits, by simp [encode, hf], by simp [decode, parseFloat, Except.map]⟩
  | char c hc =>
    refine ⟨.binary (utf8Encode c), rfl, ?_⟩
    rw [utf8Encode_ascii c hc]
    simp [decode, parseString, parseBinary, isValidUtf8_single c hc,
      utf8DecodeFirst_single c hc]
  | str bs hv =>
    exact ⟨.binary bs, rfl, by simp [decode, parseString, parseBinary, hv, Except.map]⟩
  | bytes bs _ =>
    exact ⟨.binary bs, rfl, by simp [decode, parseBinary, Except.map]⟩
  | optNone s' =>
    exact ⟨.atom nilBytes, rfl, by simp [decode]⟩
  | optSome s' v' hv hnn =>
    obtain ⟨t, het, hdt⟩ := roundTrip v' s' hv
    refine ⟨t, het, ?_⟩
    have hne : t ≠ .atom nilBytes := fun hEq => hnn (hEq ▸ het)
    rw [decode_option_notNil s' t hne, hdt]
    rfl
  | unit =>
    exact ⟨.atom nilBytes, rfl, by simp [decode]⟩
  | seq s' vs hall =>
    have hpt : ∀ w ∈ vs, ∃ t, encode w = .ok t ∧ decode s' t = .ok w := by
      intro w hmemb
      exact roundTrip w s' (hall w hmemb)
    obtain ⟨ts, hets, hdts⟩ := encodeList_decodeSeq s' vs hpt
    exact ⟨.list ts, by simp [encode, hets, except_bind_ok],
      by simp [decode, hdts]⟩
  | tuple ss vs hrt =>
    obtain ⟨hlen, hzip⟩ := rtList_zip hrt
    have hpt : List.Forall₂ (fun sh w => ∃ t, encode w = .ok t ∧ decode sh t = .ok w) ss vs := by
      rw [List.forall₂_iff_zip]
      refine ⟨hlen, ?_⟩
      intro a b hab
      have hmemb : b ∈ vs := (List.of_mem_zip hab).2
      exact roundTrip b a (hzip (a, b) hab)
    obtain ⟨ts, hets, hlen2, hdts⟩ := encodeList_decodeTuple ss vs hpt
    refine ⟨.tuple ts, by simp [encode, hets, except_bind_ok], ?_⟩
    simp only [decode]
    rw [if_neg (by omega), hdts]
  | record sf vf hnd hrtf =>
    obtain ⟨hmapEq, hlen, hzip⟩ := rtFields_zip hrtf
    have hpt : List.Forall₂ (fun sp vp => sp.1 = vp.1 ∧
        ∃ t, encode vp.2 = .ok t ∧ decode sp.2 t = .ok vp.2) sf vf := by
      rw [List.forall₂_iff_zip]
      refine ⟨hlen, ?_⟩
      intro a b hab
      have hmemp : b ∈ vf := (List.of_mem_zip hab).2
      obtain ⟨hn, hrt'⟩ := hzip (a, b) hab
      exact ⟨hn, roundTrip b.2 a.2 hrt'⟩
    obtain ⟨es, acc, hef, hdse, hall⟩ := record_roundtrip sf vf hnd hpt
    exact ⟨.map es, by simp [encode, hef, except_bind_ok], by simp [decode, hdse, hall]⟩
  | enum variants name vs p hcam hfind hp =>
    have hname : toCamelCase (toSnakeCase name) = name := toCamel_toSnake name hcam
    cases hp with
    | unit =>
      refine ⟨.atom (toSnakeCase name), rfl, ?_⟩
      simp only [decode, hname]
      exact decodeVariantAtom_found variants name hfind
    | newtype s' v' hv =>
      obtain ⟨t, het, hdt⟩ := roundTrip v' s' hv
      refine ⟨.tuple [.atom (toSnakeCase name), t], by simp [encode, het, except_bind_ok], ?_⟩
      simp only [decode, hname]
      rw [decodeVariantTuple_found_newtype variants name s' t hfind, hdt]
    | tuple ss vls hrt =>
      obtain ⟨hlen, hzip⟩ := rtList_zip hrt
      have hpt : List.Forall₂ (fun sh w => ∃ t, encode w = .ok t ∧ decode sh t = .ok w) ss vls := by
        rw [List.forall₂_iff_zip]
        refine ⟨hlen, ?_⟩
        intro a b hab
        have hmemb : b ∈ vls := (List.of_mem_zip hab).2
        exact roundTrip b a (hzip (a, b) hab)
      obtain ⟨ts, hets, hlen2, hdts⟩ := encodeList_decodeTuple ss vls hpt
      refine ⟨.tuple [.atom (toSnakeCase name), .tuple ts],
        by simp [encode, hets, except_bind_ok], ?_⟩
      simp only [decode, hname]
      rw [decodeVariantTuple_found_tuple variants name ss ts hfind, if_neg (by omega), hdts]
    | record sf vf hnd hrtf =>
      obtain ⟨hmapEq, hlen, hzip⟩ := rtFields_zip hrtf
      have hpt : List.Forall₂ (fun sp vp => sp.1 = vp.1 ∧
          ∃ t, encode vp.2 = .ok t ∧ decode sp.2 t = .ok vp.2) sf vf := by
        rw [List.forall₂_iff_zip]
        refine ⟨hlen, ?_⟩
        intro a b hab
        have hmemp : b ∈ vf := (List.of_mem_zip hab).2
        obtain ⟨hn, hrt'⟩ := hzip (a, b) hab
        exact ⟨hn, roundTrip b.2 a.2 hrt'⟩
      obtain ⟨es, acc, hef, hdse, hall⟩ := record_roundtrip sf vf hnd hpt
      refine ⟨.tuple [.atom (toSnakeCase name), .map es],
        by simp [encode, hef, except_bind_ok], ?_⟩
      simp only [decode, hname]
      rw [decodeVariantTuple_found_record variants name sf es hfind, hdse]
      simp [hall]
termination_by sizeOf v
decreasing_by
  all_goals simp_wf
  all_goals try subst_vars
  all_goals
    try simp only [VPayload.pNewtype.sizeOf_spec, VPayload.pTuple.sizeOf_spec,
      VPayload.pRecord.sizeOf_spec]
  all_goals try omega
  all_goals try (have hlt := List.sizeOf_lt_of_mem hmemb; omega)
  all_goals (have hlt := sizeOf_snd_lt_of_mem hmemp; omega)

/-- Claim C1, counterexamples: three supported values outside the documented
optional collapse whose round trip does not return them.  The non-ASCII char
`é` (scalar 233) encodes to a two-byte Binary and decoding it back fails
with `ExpectedChar`; the unsigned 64-bit value `2^63` encodes to a
BigInteger whose decode fails with `IntegerConvertError` (`to_i64`
overflows); `Some(None)` — not `Some(unit)`, the only collapse the claim
excepts — encodes to the nil atom and decodes to `None`. -/
theorem c1_counterexample :
    (encode (.vchar 233)).bind (decode .char) = .error .ExpectedChar ∧
    (encode (.vu64 9223372036854775808)).bind (decode .u64) = .error .IntegerConvertError ∧
    ((encode (.vsome .vnone)).bind (decode (.option (.option .unit))) = .ok .vnone ∧
      (Value.vnone : Value) ≠ .vsome .vnone) := by
  refine ⟨?_, ?_, ?_, by simp⟩
  · have : encode (.vchar 233) = .ok (.binary [195, 169]) := by
      simp [encode, utf8Encode]
    rw [this, exceptBind_ok]
    simp [decode, parseString, parseBinary, show isValidUtf8 [195, 169] = true from rfl]
  · rw [show encode (.vu64 9223372036854775808) = .ok (.bigInteger 9223372036854775808)
      from rfl, exceptBind_ok]
    simp only [decode, parseInteger, toI64]
    rw [if_neg (by omega)]
    rfl
  · rw [show encode (.vsome .vnone) = .ok (.atom nilBytes) from rfl, exceptBind_ok]
    simp [decode]

/-- Claim C1 as amended: for every value of a supported shape, decoding the
encoding returns the value unchanged, provided the value is round-trippable
(`RT`): integers within their width's range with unsigned 64-bit values
capped at the signed 64-bit maximum, floats finite, chars ASCII, strings
valid UTF-8, record and enum names distinct with variant names in
camel-case word form, and optionals whose payload does not itself encode to
the nil atom — the optional collapse (`encode None = encode (Some unit)` =
the nil atom) being the documented exception carried over from the claim. -/
theorem c1_round_trip (s : Shape) (v : Value) (h : RT s v) :
    (encode v).bind (decode s) = .ok v := by
  obtain ⟨t, het, hdt⟩ := roundTrip v s h
  rw [het, exceptBind_ok, hdt]

/-- Witness for the amended claim C1 at a concrete input: the newtype enum
value `Ok("test")` of the spec's scenario is round-trippable and its round
trip reproduces it. -/
theorem c1_witness :
    RT (.enum [([79, 107], .vsNewtype .str)])
       (.venum [79, 107] (.pNewtype (.vstr [116, 101, 115, 116]))) ∧
    (encode (.venum [79, 107] (.pNewtype (.vstr [116, 101, 115, 116])))).bind
        (decode (.enum [([79, 107], .vsNewtype .str)]))
      = .ok (.venum [79, 107] (.pNewtype (.vstr [116, 101, 115, 116]))) := by
  have hrt : RT (.enum [([79, 107], .vsNewtype .str)])
      (.venum [79, 107] (.pNewtype (.vstr [116, 101, 115, 116]))) :=
    RT.enum _ [79, 107] (.vsNewtype .str) _ (by decide) rfl
      (RTP.newtype .str _ (RT.str _ (by decide)))
  exact ⟨hrt, c1_round_trip _ _ hrt⟩

end SerdeEetf
